import Mathlib

/-!
Verification development for the twiva-commerce-shopify repository.

The development shallowly embeds the core of the repository:

* the commission calculator (`src/unnamed/part_006`, class
  `CommissionCalculator`): category matching, rate resolution, price
  extraction and commission-value computation over dynamically typed
  JavaScript values;
* the order-attribution click scan (`src/lib/sales-tracker.js`,
  `findTrackingForOrder`);
* the product sync manager (`src/lib/product-sync-manager.js`):
  `syncAndFetchProducts` as a labelled transition system whose atomic
  segments are the synchronous stretches between `await` points of the
  single-threaded event loop, plus the pure data paths
  `syncProductsToBackend` and `getProductsFromBackend`.

JavaScript numbers are idealised as exact rationals (`ℚ`), except that
`NaN` is modelled explicitly as `Option ℚ` with `none` for `NaN`.
JavaScript exceptions are modelled with `Except Unit`; a `try`/`catch`
in the source becomes an explicit `match` on the `Except` value.
-/

deriving instance DecidableEq for Except

namespace TwivaCommerce

/-! ## A model of dynamically typed JavaScript values

`jnull` stands for both `null` and `undefined`: on every code path
embedded here the two behave identically (both are falsy, both make a
property access throw a `TypeError`, and both parse to `NaN` under
`parseFloat`).  `jnum none` is `NaN`. -/

inductive JVal where
  | jnull
  | jbool (b : Bool)
  | jnum (x : Option ℚ)
  | jstr (s : String)
  | jarr (xs : List JVal)
  | jobj (fields : List (String × JVal))

/-- JavaScript truthiness. `NaN`, `0`, `""`, `null`/`undefined` and
`false` are falsy; every object and array is truthy. -/
def truthy : JVal → Bool
  | .jnull => false
  | .jbool b => b
  | .jnum none => false
  | .jnum (some q) => q != 0
  | .jstr s => s != ""
  | .jarr _ => true
  | .jobj _ => true

/-- `a || b` : the left operand if truthy, otherwise the right one. -/
def jsOr (a b : JVal) : JVal := if truthy a then a else b

/-- Property read `v.k`.  Reading a property of `null`/`undefined`
throws a `TypeError`; arrays and strings expose `length`; reading an
absent key of an object, or any key of another primitive, yields
`undefined`. -/
def getField : JVal → String → Except Unit JVal
  | .jnull, _ => .error ()
  | .jobj fs, k => .ok ((fs.lookup k).getD .jnull)
  | .jarr xs, k => .ok (if k = "length" then .jnum (some xs.length) else .jnull)
  | .jstr s, k => .ok (if k = "length" then .jnum (some s.length) else .jnull)
  | _, _ => .ok .jnull

/-- Index read `v[i]`.  Indexing `null`/`undefined` throws; an
out-of-range array index yields `undefined`; a string yields its i-th
character; objects are looked up by the decimal key. -/
def getIndex : JVal → Nat → Except Unit JVal
  | .jnull, _ => .error ()
  | .jarr xs, i => .ok ((xs.get? i).getD .jnull)
  | .jstr s, i => .ok (((s.data.get? i).map fun c => .jstr (String.mk [c])).getD .jnull)
  | .jobj fs, i => .ok ((fs.lookup (toString i)).getD .jnull)
  | _, _ => .ok .jnull

/-- ASCII lower-casing, standing in for `String.prototype.toLowerCase`. -/
def jsLower (s : String) : String := ⟨s.data.map Char.toLower⟩

/-- `String.prototype.trim`: strip whitespace from both ends. -/
def jsTrim (s : String) : String :=
  ⟨((s.data.dropWhile Char.isWhitespace).reverse.dropWhile Char.isWhitespace).reverse⟩

/-- Substring containment on character lists (`String.prototype.includes`). -/
def inclAux (pat : List Char) : List Char → Bool
  | [] => pat.isPrefixOf []
  | c :: t => pat.isPrefixOf (c :: t) || inclAux pat t

/-- `hay.includes(pat)`. -/
def strIncludes (hay pat : String) : Bool := inclAux pat.data hay.data

/-- The receiver of a string method such as `.toLowerCase()` or `.map`
on arrays: in JavaScript only an actual string has these methods, any
other receiver throws a `TypeError`. -/
def asString : JVal → Except Unit String
  | .jstr s => .ok s
  | _ => .error ()

/-- Digit run of a character list. -/
def takeDigits (cs : List Char) : List Char × List Char :=
  (cs.takeWhile Char.isDigit, cs.dropWhile Char.isDigit)

/-- Numeric value of a digit run. -/
def digitsToNat (ds : List Char) : Nat :=
  ds.foldl (fun a c => a * 10 + (c.toNat - 48)) 0

/-- `parseFloat` on a string: skip leading whitespace, read an optional
sign and a decimal number `digits[.digits]`; `none` (`NaN`) when no
digit is found.  (Exponents and `Infinity`, which no embedded code path
produces, are not modelled.) -/
def jsParseFloatStr (s : String) : Option ℚ :=
  let cs := s.data.dropWhile Char.isWhitespace
  let (sgn, cs) : ℚ × List Char :=
    match cs with
    | '-' :: r => (-1, r)
    | '+' :: r => (1, r)
    | _ => (1, cs)
  let (ip, rest) := takeDigits cs
  let fp : List Char :=
    match rest with
    | '.' :: r => (takeDigits r).1
    | _ => []
  if ip = [] ∧ fp = [] then none
  else some (sgn * ((digitsToNat ip : ℚ) + (digitsToNat fp : ℚ) / 10 ^ fp.length))

/-- `parseFloat(v)`: the argument is coerced to a string first.  For an
array the coercion joins the elements with `","`, so the leading parse
coincides with the parse of the first element; `null`, `undefined`,
booleans and plain objects stringify to something non-numeric. -/
def parseFloatJ : JVal → Option ℚ
  | .jnum x => x
  | .jstr s => jsParseFloatStr s
  | .jarr [] => none
  | .jarr (x :: _) => parseFloatJ x
  | _ => none

/-- Full-string numeric coercion (`ToNumber`) on a string: empty or
all-whitespace is `0`; otherwise the whole trimmed string must be a
signed decimal number. -/
def jsStrToNumber (s : String) : Option ℚ :=
  let t := jsTrim s
  if t = "" then some 0
  else
    let cs := t.data
    let (sgn, cs) : ℚ × List Char :=
      match cs with
      | '-' :: r => (-1, r)
      | '+' :: r => (1, r)
      | _ => (1, cs)
    let (ip, rest) := takeDigits cs
    let (fp, rest) : List Char × List Char :=
      match rest with
      | '.' :: r => takeDigits r
      | _ => ([], rest)
    if rest = [] ∧ ¬(ip = [] ∧ fp = []) then
      some (sgn * ((digitsToNat ip : ℚ) + (digitsToNat fp : ℚ) / 10 ^ fp.length))
    else none

/-- `ToNumber` for the values that reach an arithmetic operator or a
numeric comparison on the embedded paths.  `jnull` is always
`undefined` there (a missing property), hence `NaN`. -/
def toNumber : JVal → Option ℚ
  | .jnull => none
  | .jbool b => some (if b then 1 else 0)
  | .jnum x => x
  | .jstr s => jsStrToNumber s
  | .jarr [] => some 0
  | .jarr [.jnum x] => x
  | .jarr [.jstr s] => jsStrToNumber s
  | .jarr _ => none
  | .jobj _ => none

/-- The comparison `v > 0` (used for `variants.length > 0`): `NaN`
compares false. -/
def jsGtZero (v : JVal) : Bool :=
  match toNumber v with
  | some q => decide (0 < q)
  | none => false

/-- `NaN`-propagating multiplication. -/
def jsMul : Option ℚ → Option ℚ → Option ℚ
  | some a, some b => some (a * b)
  | _, _ => none

/-- `NaN`-propagating division by a non-zero literal. -/
def jsDivC (a : Option ℚ) (c : ℚ) : Option ℚ := a.map (· / c)

/-- `parseFloat(x.toFixed(2))` on an exact rational: `toFixed` keeps
two decimal digits rounding a tie away from zero (ECMA-262 first takes
the absolute value of a negative argument), and `parseFloat` turns the
produced digit string back into the same rational. -/
def jsToFixed2 (x : ℚ) : ℚ :=
  if x < 0 then -((⌊(-x) * 100 + 1 / 2⌋ : ℚ) / 100) else (⌊x * 100 + 1 / 2⌋ : ℚ) / 100

/-- `parseFloat(x.toFixed(2))` with `NaN` propagation
(`NaN.toFixed(2) = "NaN"` and `parseFloat("NaN") = NaN`). -/
def toFixed2Val : Option ℚ → Option ℚ
  | none => none
  | some x => some (jsToFixed2 x)

/-! ## Commission calculator (`src/unnamed/part_006`)

The static table `commission_rates` is loaded from
`data/commission-rates.json`, which is not part of the sources; the
calculator is therefore parametrised by the table, embedded as the
`Object.entries` iteration sequence: a list of categories, each with
its ordered list of `(subcategory, rate)` pairs. -/

/-- A commission-rate table in `Object.entries` iteration order. -/
abbrev RateTable := List (String × List (String × ℚ))

/-- The product fields extracted at the top of `matchProductCategory`. -/
structure PFields where
  productType : String
  tags : List String
  title : String
  vendor : String
deriving DecidableEq

/-- The four field extractions at the top of `matchProductCategory`:
`(product.x || '').toLowerCase().trim()` for `productType`, `title`,
`vendor`, and `(product.tags || []).map(tag => tag.toLowerCase().trim())`.
A `null` product, a truthy non-string field or a truthy non-array (or
non-string element) `tags` value throws. -/
def lowerTrimOf (v : JVal) : Except Unit String := do
  let s ← asString (jsOr v (.jstr ""))
  pure (jsTrim (jsLower s))

/-- Extraction of the `tags` list: `(product.tags || []).map(...)`. -/
def tagsOf (v : JVal) : Except Unit (List String) :=
  match jsOr v (.jarr []) with
  | .jarr xs => xs.mapM fun t => do
      let s ← asString t
      pure (jsTrim (jsLower s))
  | _ => .error ()

/-- The field-extraction prologue of `matchProductCategory`. -/
def extractFields (product : JVal) : Except Unit PFields := do
  let pt ← getField product "productType" >>= lowerTrimOf
  let tg ← getField product "tags" >>= tagsOf
  let ti ← getField product "title" >>= lowerTrimOf
  let ve ← getField product "vendor" >>= lowerTrimOf
  pure ⟨pt, tg, ti, ve⟩

/-- `isExactMatch(productType, category, subcategory)`. -/
def isExactMatch (productType category subcategory : String) : Bool :=
  let c := jsLower category
  let s := jsLower subcategory
  productType == c || productType == s ||
    strIncludes productType c || strIncludes productType s

/-- `isTagMatch(tags, category, subcategory)`. -/
def isTagMatch (tags : List String) (category subcategory : String) : Bool :=
  let c := jsLower category
  let s := jsLower subcategory
  tags.any fun tag => tag == c || tag == s || strIncludes tag c || strIncludes tag s

/-- `isTitleMatch(title, category, subcategory)`. -/
def isTitleMatch (title category subcategory : String) : Bool :=
  strIncludes title (jsLower category) || strIncludes title (jsLower subcategory)

/-- `isVendorMatch(vendor, category, subcategory)`. -/
def isVendorMatch (vendor category subcategory : String) : Bool :=
  strIncludes vendor (jsLower category) || strIncludes vendor (jsLower subcategory)

/-- The fixed keyword dictionary of `isFuzzyMatch`. -/
def keywordMappings : List (String × List String) :=
  [("phones & tablets", ["phone", "mobile", "smartphone", "tablet", "ipad", "iphone", "android"]),
   ("phones", ["phone", "mobile", "smartphone", "iphone", "android"]),
   ("accessories", ["case", "cover", "charger", "cable", "accessory", "screen protector"]),
   ("appliances", ["appliance", "refrigerator", "washing machine", "dryer", "dishwasher"]),
   ("electronics", ["electronic", "gadget", "device"]),
   ("computing & gaming", ["computer", "laptop", "desktop", "gaming", "console", "pc"]),
   ("cameras", ["camera", "photography", "lens", "dslr", "mirrorless"]),
   ("tv", ["television", "tv", "smart tv", "monitor", "display"]),
   ("audio", ["headphones", "speaker", "audio", "earbuds", "sound"]),
   ("fashion", ["clothing", "fashion", "apparel", "wear"]),
   ("men", ["men", "mens", "male", "gentleman"]),
   ("women", ["women", "womens", "female", "ladies"]),
   ("kids & babies", ["kids", "children", "baby", "infant", "toddler"]),
   ("shoes", ["shoes", "sneakers", "boots", "sandals", "footwear"]),
   ("beauty & health", ["beauty", "health", "cosmetics", "skincare"]),
   ("makeup", ["makeup", "cosmetics", "lipstick", "foundation"]),
   ("home & living", ["home", "house", "living", "household"]),
   ("furniture", ["furniture", "chair", "table", "bed", "sofa"]),
   ("sports & outdoors", ["sports", "outdoor", "fitness", "exercise"]),
   ("automotive", ["car", "auto", "vehicle", "automotive"]),
   ("groceries", ["food", "grocery", "snack", "beverage"]),
   ("books", ["book", "reading", "literature"]),
   ("toys & games", ["toy", "game", "play", "puzzle"]),
   ("pet supplies", ["pet", "dog", "cat", "animal"])]

/-- `isFuzzyMatch(productType, title, tags, category, subcategory)`. -/
def isFuzzyMatch (productType title : String) (tags : List String)
    (category subcategory : String) : Bool :=
  let allText := jsLower (productType ++ " " ++ title ++ " " ++ String.intercalate " " tags)
  let categoryKeywords := (keywordMappings.lookup (jsLower category)).getD []
  let subcategoryKeywords := (keywordMappings.lookup (jsLower subcategory)).getD []
  categoryKeywords.any (fun keyword => strIncludes allText keyword) ||
    subcategoryKeywords.any (fun keyword => strIncludes allText keyword)

/-- The record returned from `matchProductCategory` on a hit. -/
structure CatMatch where
  rate : ℚ
  category : String
  subcategory : String
deriving DecidableEq

/-- Whether a `(category, subcategory)` pair passes the first
(non-fuzzy) scan of `matchProductCategory`. -/
def pass1Hit (f : PFields) (category subcategory : String) : Bool :=
  isExactMatch f.productType category subcategory ||
    isTagMatch f.tags category subcategory ||
    isTitleMatch f.title category subcategory ||
    isVendorMatch f.vendor category subcategory

/-- Inner loop of the first scan over one category's subcategories. -/
def pass1Subs (f : PFields) (category : String) : List (String × ℚ) → Option CatMatch
  | [] => none
  | (subcategory, rate) :: rest =>
    if pass1Hit f category subcategory then some ⟨rate, category, subcategory⟩
    else pass1Subs f category rest

/-- First scan of `matchProductCategory`: exact/tag/title/vendor rules,
pair by pair in table iteration order. -/
def pass1 (f : PFields) : RateTable → Option CatMatch
  | [] => none
  | (category, subs) :: rest =>
    match pass1Subs f category subs with
    | some m => some m
    | none => pass1 f rest

/-- Inner loop of the fuzzy scan. -/
def fuzzySubs (f : PFields) (category : String) : List (String × ℚ) → Option CatMatch
  | [] => none
  | (subcategory, rate) :: rest =>
    if isFuzzyMatch f.productType f.title f.tags category subcategory then
      some ⟨rate, category, subcategory⟩
    else fuzzySubs f category rest

/-- Second scan of `matchProductCategory`: the fuzzy keyword rule, only
reached when the first scan found nothing. -/
def fuzzyPass (f : PFields) : RateTable → Option CatMatch
  | [] => none
  | (category, subs) :: rest =>
    match fuzzySubs f category subs with
    | some m => some m
    | none => fuzzyPass f rest

/-- The two scans of `matchProductCategory` after field extraction. -/
def matchOnFields (tbl : RateTable) (f : PFields) : Option CatMatch :=
  match pass1 f tbl with
  | some m => some m
  | none => fuzzyPass f tbl

/-- `matchProductCategory(product)`. -/
def matchProductCategory (tbl : RateTable) (product : JVal) : Except Unit (Option CatMatch) :=
  (extractFields product).map (matchOnFields tbl)

/-- The result of `calculateCommissionRate`. -/
structure RateInfo where
  rate : ℚ
  category : String
  subcategory : String
  isDefault : Bool
deriving DecidableEq

/-- `this.defaultRate` (15% for uncategorized products). -/
def defaultRate : ℚ := 15

/-- `calculateCommissionRate(product)`: the `try`/`catch` around the
category match makes the function total — an internal fault yields the
default rate tagged with subcategory `"Error"`, a genuine miss the
default rate tagged `"Uncategorized"`. -/
def calculateCommissionRate (tbl : RateTable) (product : JVal) : RateInfo :=
  match matchProductCategory tbl product with
  | .error _ => ⟨defaultRate, "Other", "Error", true⟩
  | .ok none => ⟨defaultRate, "Other", "Uncategorized", true⟩
  | .ok (some m) => ⟨m.rate, m.category, m.subcategory, false⟩

/-- `extractProductPrice(product)`: no `try`/`catch` here, so a `null`
product or a missing first variant propagates the `TypeError`. -/
def extractProductPrice (product : JVal) : Except Unit (Option ℚ) := do
  let price ← getField product "price"
  if truthy price then
    pure (parseFloatJ price)
  else do
    let variants ← getField product "variants"
    if truthy variants then do
      let len ← getField variants "length"
      if jsGtZero len then do
        let variant ← getIndex variants 0
        let vprice ← getField variant "price"
        pure (parseFloatJ (jsOr vprice (.jnum (some 0))))
      else
        pure (some 0)
    else
      pure (some 0)

/-- The result of `calculateCommissionValue`: the resolved rate data
plus the raw price operand and the rounded commission value. -/
structure ValueInfo where
  rate : ℚ
  category : String
  subcategory : String
  isDefault : Bool
  price : Option ℚ
  value : Option ℚ
deriving DecidableEq

/-- The arithmetic core of `calculateCommissionValue` (lines 56-61):
`parseFloat(((price * rate) / 100).toFixed(2))`. -/
def commissionValueOf (price rate : ℚ) : ℚ := jsToFixed2 (price * rate / 100)

/-- `calculateCommissionValue(product, price = null)`.  The explicit
price operand is used when truthy, otherwise the price is extracted
from the product — outside any `try`/`catch`, so that extraction fault
propagates. -/
def calculateCommissionValue (tbl : RateTable) (product priceArg : JVal) :
    Except Unit ValueInfo := do
  let productPrice : Option ℚ ←
    if truthy priceArg then pure (toNumber priceArg)
    else extractProductPrice product
  let rateInfo := calculateCommissionRate tbl product
  let value := toFixed2Val (jsDivC (jsMul productPrice (some rateInfo.rate)) 100)
  pure ⟨rateInfo.rate, rateInfo.category, rateInfo.subcategory, rateInfo.isDefault,
        productPrice, value⟩

/-! ## Spec-side reference definitions for the resolver -/

/-- All `(category, subcategory, rate)` pairs of a table, flattened in
iteration order. -/
def tablePairs (tbl : RateTable) : List (String × String × ℚ) :=
  (tbl.map fun cs => cs.2.map fun sr => (cs.1, sr)).flatten

/-- Whether a pair passes at least one of the five matching rules
(exact, tag, title, vendor, fuzzy). -/
def anyRuleHit (f : PFields) (category subcategory : String) : Bool :=
  pass1Hit f category subcategory ||
    isFuzzyMatch f.productType f.title f.tags category subcategory

/-- Modelled from the spec: the resolver described by the sentence
"first (category, subcategory) pair satisfying any rule (in table
iteration order) wins" — a single scan testing all five rules on each
pair. -/
def specFirstMatchAny (tbl : RateTable) (f : PFields) : Option CatMatch :=
  ((tablePairs tbl).find? fun p => anyRuleHit f p.1 p.2.1).map fun p => ⟨p.2.2, p.1, p.2.1⟩

/-- First pair (in iteration order) passing a non-fuzzy rule. -/
def specFirstPass1 (tbl : RateTable) (f : PFields) : Option CatMatch :=
  ((tablePairs tbl).find? fun p => pass1Hit f p.1 p.2.1).map fun p => ⟨p.2.2, p.1, p.2.1⟩

/-- First pair (in iteration order) passing the fuzzy rule. -/
def specFirstFuzzy (tbl : RateTable) (f : PFields) : Option CatMatch :=
  ((tablePairs tbl).find? fun p =>
      isFuzzyMatch f.productType f.title f.tags p.1 p.2.1).map fun p => ⟨p.2.2, p.1, p.2.1⟩

/-- Modelled from the spec: `data/commission-rates.json` is not among
the sources, so a sample table is assembled from the spec's data (the
`Phones & Tablets`/`Phones` entry at 4%) and category names appearing
in the calculator's own keyword dictionary. -/
def sampleRateTable : RateTable :=
  [("Phones & Tablets", [("Phones", 4), ("Tablets", 4)]),
   ("Books", [("Books", 8)]),
   ("Fashion", [("Shoes", 6)])]

lemma pass1Subs_eq_find (f : PFields) (c : String) (subs : List (String × ℚ)) :
    pass1Subs f c subs =
      (subs.find? fun sr => pass1Hit f c sr.1).map fun sr => ⟨sr.2, c, sr.1⟩ := by
  induction subs with
  | nil => rfl
  | cons sr rest ih =>
    by_cases h : pass1Hit f c sr.1
    · simp [pass1Subs, List.find?_cons, h]
    · simp [pass1Subs, List.find?_cons, h, ih]

lemma fuzzySubs_eq_find (f : PFields) (c : String) (subs : List (String × ℚ)) :
    fuzzySubs f c subs =
      (subs.find? fun sr => isFuzzyMatch f.productType f.title f.tags c sr.1).map
        fun sr => ⟨sr.2, c, sr.1⟩ := by
  induction subs with
  | nil => rfl
  | cons sr rest ih =>
    by_cases h : isFuzzyMatch f.productType f.title f.tags c sr.1
    · simp [fuzzySubs, List.find?_cons, h]
    · simp [fuzzySubs, List.find?_cons, h, ih]

lemma tablePairs_cons (c : String) (subs : List (String × ℚ)) (rest : RateTable) :
    tablePairs ((c, subs) :: rest) =
      (subs.map fun sr => (c, sr)) ++ tablePairs rest := by
  simp [tablePairs]

lemma pass1_eq_find (f : PFields) (tbl : RateTable) :
    pass1 f tbl = specFirstPass1 tbl f := by
  induction tbl with
  | nil => rfl
  | cons cs rest ih =>
    obtain ⟨c, subs⟩ := cs
    have hcomp : ((fun p : String × String × ℚ => pass1Hit f p.1 p.2.1) ∘
        fun sr : String × ℚ => (c, sr)) = fun sr : String × ℚ => pass1Hit f c sr.1 := rfl
    show (match pass1Subs f c subs with
          | some m => some m
          | none => pass1 f rest) = _
    rw [pass1Subs_eq_find]
    unfold specFirstPass1
    rw [tablePairs_cons, List.find?_append, List.find?_map, hcomp]
    cases h : subs.find? fun sr : String × ℚ => pass1Hit f c sr.1 with
    | none => simpa using ih
    | some sr => simp [h]

lemma fuzzyPass_eq_find (f : PFields) (tbl : RateTable) :
    fuzzyPass f tbl = specFirstFuzzy tbl f := by
  induction tbl with
  | nil => rfl
  | cons cs rest ih =>
    obtain ⟨c, subs⟩ := cs
    have hcomp : ((fun p : String × String × ℚ =>
        isFuzzyMatch f.productType f.title f.tags p.1 p.2.1) ∘
        fun sr : String × ℚ => (c, sr)) =
        fun sr : String × ℚ => isFuzzyMatch f.productType f.title f.tags c sr.1 := rfl
    show (match fuzzySubs f c subs with
          | some m => some m
          | none => fuzzyPass f rest) = _
    rw [fuzzySubs_eq_find]
    unfold specFirstFuzzy
    rw [tablePairs_cons, List.find?_append, List.find?_map, hcomp]
    cases h : subs.find? fun sr : String × ℚ =>
        isFuzzyMatch f.productType f.title f.tags c sr.1 with
    | none => simpa using ih
    | some sr => simp [h]

/-- C1 (counterexample): on the sample table, a product titled
`"reading shoes"` makes the resolver return the later pair
`Fashion/Shoes` (which passes the non-fuzzy title rule) even though the
earlier pair `Books/Books` already satisfies one of the five rules (the
fuzzy keyword `"reading"`), so the first-pair-satisfying-any-rule
description is false as stated. -/
theorem c1_counterexample :
    matchProductCategory sampleRateTable (.jobj [("title", .jstr "reading shoes")]) =
      .ok (some ⟨6, "Fashion", "Shoes"⟩) ∧
    specFirstMatchAny sampleRateTable ⟨"", [], "reading shoes", ""⟩ =
      some ⟨8, "Books", "Books"⟩ ∧
    extractFields (.jobj [("title", .jstr "reading shoes")]) =
      .ok ⟨"", [], "reading shoes", ""⟩ := by
  refine ⟨by decide, by decide, by decide⟩

/-- C1 (amended): `matchProductCategory` is a two-pass resolver — it
returns the first pair (in table iteration order) satisfying one of the
four non-fuzzy rules, and only when no pair does, the first pair
satisfying the fuzzy keyword rule; a later pair passing a non-fuzzy
rule therefore beats an earlier pair that only passes the fuzzy rule. -/
theorem c1_two_pass_first_match (tbl : RateTable) (f : PFields) :
    matchOnFields tbl f = (specFirstPass1 tbl f).or (specFirstFuzzy tbl f) := by
  unfold matchOnFields
  rw [pass1_eq_find, fuzzyPass_eq_find]
  cases specFirstPass1 tbl f <;> rfl

/-! ## Error handling and numerics of the calculator (C3, C4, C9) -/

@[simp] lemma exceptBind_ok {α β ε : Type} (a : α) (f : α → Except ε β) :
    (Except.ok a >>= f) = f a := rfl

@[simp] lemma exceptBind_error {α β ε : Type} (e : ε) (f : α → Except ε β) :
    ((Except.error e : Except ε α) >>= f) = .error e := rfl

@[simp] lemma exceptPure_eq_ok {α ε : Type} (a : α) :
    (pure a : Except ε α) = .ok a := rfl

/-- The result shape `calculateCommissionValue` produces once the price
operand has been obtained. -/
lemma calcValue_truthy_price (tbl : RateTable) (v p : JVal) (hp : truthy p = true) :
    calculateCommissionValue tbl v p =
      .ok ⟨(calculateCommissionRate tbl v).rate, (calculateCommissionRate tbl v).category,
        (calculateCommissionRate tbl v).subcategory, (calculateCommissionRate tbl v).isDefault,
        toNumber p,
        toFixed2Val (jsDivC (jsMul (toNumber p) (some (calculateCommissionRate tbl v).rate)) 100)⟩ := by
  simp [calculateCommissionValue, hp]

/-- C3 (counterexample): called on a `null` product with no explicit
price, `calculateCommissionValue` throws (the price extraction sits
outside the `try`/`catch`), refuting "never throw" as stated. -/
theorem c3_counterexample :
    calculateCommissionValue sampleRateTable .jnull .jnull = .error () := by decide

/-- C3 (amended): `calculateCommissionRate` never throws — an internal
fault yields the default rate tagged `"Error"`, a genuine miss the
default rate tagged `"Uncategorized"`, and the two tags are distinct;
`calculateCommissionValue` never throws when a truthy explicit price is
supplied, but can propagate a price-extraction fault (for example on a
`null` product) when it is not. -/
theorem c3_fault_handling :
    (∀ (tbl : RateTable) (v : JVal) (e : Unit), matchProductCategory tbl v = .error e →
      calculateCommissionRate tbl v = ⟨defaultRate, "Other", "Error", true⟩) ∧
    (∀ (tbl : RateTable) (v : JVal), matchProductCategory tbl v = .ok none →
      calculateCommissionRate tbl v = ⟨defaultRate, "Other", "Uncategorized", true⟩) ∧
    ("Error" : String) ≠ "Uncategorized" ∧
    (∀ (tbl : RateTable) (v p : JVal), truthy p = true →
      calculateCommissionValue tbl v p ≠ .error ()) := by
  refine ⟨?_, ?_, by decide, ?_⟩
  · intro tbl v e h
    unfold calculateCommissionRate
    rw [h]
  · intro tbl v h
    unfold calculateCommissionRate
    rw [h]
  · intro tbl v p hp
    rw [calcValue_truthy_price tbl v p hp]
    exact fun h => Except.noConfusion h

/-- C3 (witness): the amended theorem applied at concrete inputs — a
`null` product faults the matcher (tag `"Error"`), a numeric product is
a genuine miss (tag `"Uncategorized"`), and an explicit truthy price
prevents any throw even on a `null` product. -/
theorem c3_witness :
    calculateCommissionRate sampleRateTable .jnull = ⟨defaultRate, "Other", "Error", true⟩ ∧
    calculateCommissionRate sampleRateTable (.jnum (some 5)) =
      ⟨defaultRate, "Other", "Uncategorized", true⟩ ∧
    calculateCommissionValue sampleRateTable .jnull (.jnum (some 7)) ≠ .error () :=
  ⟨c3_fault_handling.1 sampleRateTable .jnull () (by decide),
   c3_fault_handling.2.1 sampleRateTable (.jnum (some 5)) (by decide),
   c3_fault_handling.2.2.2 sampleRateTable .jnull (.jnum (some 7)) (by decide)⟩

/-- C4 (counterexample): a truthy but non-numeric `price` field is fed
to `parseFloat`, which returns `NaN` (`none`), not `0`, refuting the
claim that every non-numeric price input coerces to 0. -/
theorem c4_counterexample :
    extractProductPrice (.jobj [("price", .jstr "abc")]) = .ok none ∧
    (none : Option ℚ) ≠ some 0 := by
  refine ⟨by decide, by decide⟩

/-- C4 (amended): `extractProductPrice` returns `parseFloat` of the
explicit `price` field whenever that field is truthy (which is `NaN`
for a non-numeric string), otherwise `parseFloat` of the first
variant's price (defaulted to 0 when falsy) whenever `variants` is a
non-empty array, otherwise `0`; and it throws rather than returning 0
on a `null` product. -/
theorem c4_price_extraction :
    (∀ (product p : JVal), getField product "price" = .ok p → truthy p = true →
      extractProductPrice product = .ok (parseFloatJ p)) ∧
    (∀ (product p vs : JVal), getField product "price" = .ok p → truthy p = false →
      getField product "variants" = .ok vs → truthy vs = false →
      extractProductPrice product = .ok (some 0)) ∧
    (∀ (product p : JVal) (v : JVal) (rest : List JVal) (vp : JVal),
      getField product "price" = .ok p → truthy p = false →
      getField product "variants" = .ok (.jarr (v :: rest)) →
      getField v "price" = .ok vp →
      extractProductPrice product = .ok (parseFloatJ (jsOr vp (.jnum (some 0))))) ∧
    extractProductPrice .jnull = .error () := by
  refine ⟨?_, ?_, ?_, rfl⟩
  · intro product p hp htr
    unfold extractProductPrice
    rw [hp]
    simp only [exceptBind_ok]
    rw [if_pos htr]
    rfl
  · intro product p vs hp htr hvs htvs
    unfold extractProductPrice
    rw [hp]
    simp only [exceptBind_ok]
    rw [if_neg (by simp [htr]), hvs]
    simp only [exceptBind_ok]
    rw [if_neg (by simp [htvs])]
    rfl
  · intro product p v rest vp hp htr hvs hvp
    have hgt : jsGtZero (.jnum (some ((v :: rest).length : ℚ))) = true := by
      show decide (0 < ((v :: rest).length : ℚ)) = true
      simp only [decide_eq_true_eq, List.length_cons]
      exact_mod_cast Nat.succ_pos rest.length
    unfold extractProductPrice
    rw [hp]
    simp only [exceptBind_ok]
    rw [if_neg (by simp [htr]), hvs]
    simp only [exceptBind_ok]
    rw [if_pos (show truthy (.jarr (v :: rest)) = true from rfl),
      show getField (.jarr (v :: rest)) "length" =
        .ok (.jnum (some ((v :: rest).length : ℚ))) from rfl]
    simp only [exceptBind_ok]
    rw [if_pos hgt, show getIndex (.jarr (v :: rest)) 0 = .ok v from rfl]
    simp only [exceptBind_ok]
    rw [hvp]
    rfl

/-- C4 (witness): the amended theorem applied at concrete products for
each branch. -/
theorem c4_witness :
    extractProductPrice (.jobj [("price", .jnum (some 12))]) = .ok (some 12) ∧
    extractProductPrice (.jobj [("title", .jstr "x")]) = .ok (some 0) ∧
    extractProductPrice
      (.jobj [("variants", .jarr [.jobj [("price", .jnum (some 7))]])]) = .ok (some 7) := by
  refine ⟨?_, ?_, ?_⟩
  · have h := c4_price_extraction.1 (.jobj [("price", .jnum (some 12))]) (.jnum (some 12))
      rfl (by decide)
    rw [h]
    rfl
  · exact c4_price_extraction.2.1 (.jobj [("title", .jstr "x")]) .jnull .jnull
      rfl rfl rfl rfl
  · have h := c4_price_extraction.2.2.1
      (.jobj [("variants", .jarr [.jobj [("price", .jnum (some 7))]])]) .jnull
      (.jobj [("price", .jnum (some 7))]) [] (.jnum (some 7))
      rfl rfl rfl rfl
    rw [h]
    show Except.ok (parseFloatJ (jsOr (.jnum (some 7)) (.jnum (some 0)))) = _
    rw [show jsOr (.jnum (some 7)) (.jnum (some 0)) = .jnum (some 7) from by
      unfold jsOr
      rw [if_pos (by decide)]]
    rfl

/-- Modelled from the spec: "rounded to 2 decimal places using standard
(not banker's) rounding" — ties go up in absolute value (away from
zero), never to the even neighbour. -/
def roundHalfAway (y : ℚ) : ℤ := if 0 ≤ y then ⌊y + 1 / 2⌋ else -⌊-y + 1 / 2⌋

/-- Modelled from the spec: value = price × rate / 100 rounded to two
decimal places with standard rounding. -/
def specRound2 (x : ℚ) : ℚ := (roundHalfAway (x * 100) : ℚ) / 100

/-- C9: the commission value is price × rate / 100 rounded to two
decimals with standard (ties-away-from-zero, non-banker's) rounding;
in particular price 19.995 at rate 15 gives 3.00, a half-cent tie
(0.125) rounds up to 0.13 rather than to the even 0.12, and any truthy
numeric explicit price flows through `calculateCommissionValue` into
exactly this rounding of price × rate / 100. -/
theorem c9_standard_rounding :
    (∀ p r : ℚ, commissionValueOf p r = specRound2 (p * r / 100)) ∧
    commissionValueOf (19995 / 1000) 15 = 3 ∧
    commissionValueOf (1 / 2) 25 = 13 / 100 ∧
    (∀ (tbl : RateTable) (v : JVal) (q : ℚ), q ≠ 0 →
      calculateCommissionValue tbl v (.jnum (some q)) =
        .ok ⟨(calculateCommissionRate tbl v).rate, (calculateCommissionRate tbl v).category,
          (calculateCommissionRate tbl v).subcategory, (calculateCommissionRate tbl v).isDefault,
          some q, some (commissionValueOf q (calculateCommissionRate tbl v).rate)⟩) := by
  refine ⟨?_, ?_, ?_, ?_⟩
  · intro p r
    unfold commissionValueOf jsToFixed2 specRound2 roundHalfAway
    set x : ℚ := p * r / 100 with hx
    rcases lt_or_le x 0 with h | h
    · rw [if_pos h, if_neg (by nlinarith), neg_mul]
      push_cast
      ring
    · rw [if_neg (not_lt.mpr h), if_pos (by nlinarith)]
  · norm_num [commissionValueOf, jsToFixed2, Int.floor_eq_iff]
  · norm_num [commissionValueOf, jsToFixed2, Int.floor_eq_iff]
  · intro tbl v q hq
    have htr : truthy (.jnum (some q)) = true := by simp [truthy, hq]
    rw [calcValue_truthy_price tbl v _ htr]
    simp [toNumber, toFixed2Val, jsDivC, jsMul, commissionValueOf]

/-- C9 (witness): the pipeline conjunct applied at price 19.995 on an
empty product (default rate 15), evaluating to a commission of 3.00. -/
theorem c9_witness :
    calculateCommissionValue sampleRateTable (.jobj []) (.jnum (some (19995 / 1000))) =
      .ok ⟨15, "Other", "Uncategorized", true, some (19995 / 1000), some 3⟩ := by
  have h := c9_standard_rounding.2.2.2 sampleRateTable (.jobj []) (19995 / 1000) (by norm_num)
  rw [h, show calculateCommissionRate sampleRateTable (.jobj []) =
      ⟨15, "Other", "Uncategorized", true⟩ from by decide,
    c9_standard_rounding.2.1]

/-! ## Order attribution (`src/lib/sales-tracker.js`, `findTrackingForOrder`)

Times are epoch milliseconds (`ℤ`), mirroring `Date.getTime()`.  The
recent-click list is a parameter: `getRecentClicksForShop` is a stub in
the source, and the spec describes the matching loop assuming that
collaborator is functional. -/

/-- A line item of the inbound order payload (only the field the click
scan reads). `none` models a `null`/absent `product_id`. -/
structure LineItem where
  product_id : Option String
deriving DecidableEq

/-- The inbound order payload fields read by `findTrackingForOrder`. -/
structure OrderData where
  shop_id : String
  created_at : ℤ
  note_attributes : Option (List (String × String))
  line_items : Option (List LineItem)
deriving DecidableEq

/-- A recent click, as the backend would return it. -/
structure Click where
  track_id : String
  shopId : String
  influencer_id : String
  productId : Option String
  clicked_at : ℤ
deriving DecidableEq

/-- The tracking data `findTrackingForOrder` returns. -/
structure TrackingData where
  track_id : String
  shop_id : String
  affiliate_id : Option String
deriving DecidableEq

/-- `x.toString()` on an id: throws a `TypeError` when the id is
`null`/`undefined`. -/
def idToString : Option String → Except Unit String
  | none => .error ()
  | some s => .ok s

/-- The `Array.prototype.some` callback chain
`item.product_id.toString() === click.productId.toString()`:
an exception thrown by a callback aborts `some` (and the whole scan). -/
def someMatching (pid : Option String) : List LineItem → Except Unit Bool
  | [] => .ok false
  | item :: rest => do
    let a ← idToString item.product_id
    let b ← idToString pid
    if a == b then .ok true else someMatching pid rest

/-- `orderData.line_items?.some(...)`: optional chaining yields a falsy
`undefined` when `line_items` is absent, without running the callback. -/
def hasMatchingProductOf (order : OrderData) (click : Click) : Except Unit Bool :=
  match order.line_items with
  | none => .ok false
  | some items => someMatching click.productId items

/-- One iteration of the click loop: the 24-hour window check, then the
product validation `hasMatchingProduct || !click.productId`. -/
def tryClick (order : OrderData) (click : Click) : Except Unit (Option TrackingData) :=
  let timeDiff := order.created_at - click.clicked_at
  if 0 < timeDiff ∧ timeDiff < 24 * 60 * 60 * 1000 then do
    let hasMatching ← hasMatchingProductOf order click
    if hasMatching || click.productId.isNone then
      .ok (some ⟨click.track_id, click.shopId, some click.influencer_id⟩)
    else .ok none
  else .ok none

/-- The `for (const click of recentClicks)` loop. -/
def scanClicks (order : OrderData) : List Click → Except Unit (Option TrackingData)
  | [] => .ok none
  | c :: rest => do
    match ← tryClick order c with
    | some t => pure (some t)
    | none => scanClicks order rest

/-- Method 1: the `commission_track_id` note attribute, when present. -/
def noteAttrTracking (order : OrderData) : Option TrackingData :=
  match order.note_attributes with
  | none => none
  | some attrs =>
    (attrs.find? fun a => a.1 == "commission_track_id").map
      fun a => ⟨a.2, order.shop_id, none⟩

/-- `findTrackingForOrder(orderData)` over a given recent-click list:
the surrounding `try`/`catch` turns any thrown `TypeError` into the
`null` (unattributed) result. -/
def findTrackingForOrder (order : OrderData) (recentClicks : List Click) :
    Option TrackingData :=
  match noteAttrTracking order with
  | some t => some t
  | none =>
    match scanClicks order recentClicks with
    | .ok r => r
    | .error _ => none

/-- Modelled from the spec: select the first click that precedes the
order by a positive duration under 24 hours and whose product id
appears among the line items, or that has no product id (store-wide
link); `null` when none qualifies. -/
def specFindTracking (order : OrderData) (recentClicks : List Click) :
    Option TrackingData :=
  match noteAttrTracking order with
  | some t => some t
  | none =>
    (recentClicks.find? fun c =>
      let d := order.created_at - c.clicked_at
      decide (0 < d) && decide (d < 24 * 60 * 60 * 1000) &&
        (match c.productId with
         | none => true
         | some pid => (order.line_items.getD []).any fun item =>
             item.product_id == some pid)).map
      fun c => ⟨c.track_id, c.shopId, some c.influencer_id⟩

/-- The C2 failing input: an order with one line item an hour after a
store-wide click (no product id). -/
def order2 : OrderData := ⟨"s1", 3600000, none, some [⟨some "p1"⟩]⟩

/-- The store-wide click of the C2 failing input. -/
def clickStoreWide : Click := ⟨"t1", "s1", "a1", none, 0⟩

/-- A product-specific click matching `order2`'s line item. -/
def clickProduct : Click := ⟨"t2", "s1", "a2", some "p1", 0⟩

/-- C2: the spec says a store-wide click (no product id) within the
24-hour window attributes the order, but the code evaluates
`click.productId.toString()` on `null`, throws, and the `catch` returns
`null` — the order is left unattributed, and the thrown scan even hides
later qualifying clicks; a product-matching click behaves as the spec
says. -/
theorem c2_storewide_click_bug :
    findTrackingForOrder order2 [clickStoreWide] = none ∧
    specFindTracking order2 [clickStoreWide] = some ⟨"t1", "s1", some "a1"⟩ ∧
    scanClicks order2 [clickStoreWide] = .error () ∧
    findTrackingForOrder order2 [clickStoreWide, clickProduct] = none ∧
    findTrackingForOrder order2 [clickProduct] = some ⟨"t2", "s1", some "a2"⟩ ∧
    specFindTracking order2 [clickProduct] = some ⟨"t2", "s1", some "a2"⟩ := by
  refine ⟨by decide, by decide, by decide, by decide, by decide, by decide⟩

/-! ## Product sync manager (`src/lib/product-sync-manager.js`)

`syncAndFetchProducts` runs on a single-threaded event loop: control
can only change hands at an `await`.  The manager is embedded as a
labelled transition system whose states carry the module-global maps
`syncInProgress` and `lastSyncTime` plus one task per invocation, and
whose transitions are the synchronous segments between suspension
points. -/

/-- Position of one `syncAndFetchProducts` invocation between
suspension points. -/
inductive Pc where
  | notStarted
  | shortRead
  | staleRead
  | fetching
  | writing
  | reading
  | done
deriving DecidableEq

/-- How an invocation finished: the backend read it returned, the
zero-products empty result, or a propagated error. -/
inductive RetV where
  | backendRead
  | emptyList
  | threw
deriving DecidableEq

/-- One invocation of `syncAndFetchProducts(shop, {forceRefresh})`. -/
structure Task where
  shop : String
  force : Bool
  pc : Pc
  ret : Option RetV
deriving DecidableEq

/-- Global state: the per-shop `syncInProgress` and `lastSyncTime` maps
and the outstanding invocations. -/
structure SyncConfig where
  inProgress : String → Bool
  lastSync : String → Option ℕ
  tasks : List Task

/-- Observable events of a transition. -/
inductive Ev where
  | guardHit
  | beginStale
  | beginFetch
  | endShortRead
  | endStaleRead
  | fetchFail
  | fetchEmpty
  | fetchSome
  | endWrite
  | endRead (now : ℕ)
deriving DecidableEq

/-- A transition label: task index plus event. -/
structure Label where
  i : ℕ
  ev : Ev
deriving DecidableEq

/-- One atomic segment of `syncAndFetchProducts`:

* `guardHit` — lines 26-29: the in-progress flag is set and the call is
  not forced, so the invocation just awaits a backend read, touching
  neither flag nor timestamp;
* `beginStale` — lines 32-38: the flag is taken, then the recent-sync
  check passes (it can only pass when a last-sync time exists) and the
  invocation awaits a backend read inside the `try`;
* `beginFetch` — lines 32-43: the flag is taken and the Shopify fetch
  begins (always when forced, and possible whenever the staleness
  window has lapsed);
* `endShortRead` / `endStaleRead` — the awaited backend read resolves
  and the invocation returns it (the `finally` clears the flag only on
  the stale path, which runs inside the `try`);
* `fetchFail` — the fetch rejects; the error propagates, the `finally`
  clears the flag;
* `fetchEmpty` — zero products: return `[]`, `finally` clears the flag;
* `fetchSome` — products arrived, the write pass starts;
* `endWrite` — `syncProductsToBackend` settles (it never rejects), the
  read-back starts;
* `endRead now` — the read-back resolves: `lastSyncTime` is set to
  `now`, the result is returned, the `finally` clears the flag. -/
inductive Step : SyncConfig → Label → SyncConfig → Prop where
  | guardHit {c : SyncConfig} {i : ℕ} {t : Task}
      (hget : c.tasks.get? i = some t) (hpc : t.pc = .notStarted)
      (hflag : c.inProgress t.shop = true) (hforce : t.force = false) :
      Step c ⟨i, .guardHit⟩
        { c with tasks := c.tasks.set i { t with pc := .shortRead } }
  | beginStale {c : SyncConfig} {i : ℕ} {t : Task}
      (hget : c.tasks.get? i = some t) (hpc : t.pc = .notStarted)
      (hflag : c.inProgress t.shop = false) (hforce : t.force = false)
      (hlast : c.lastSync t.shop ≠ none) :
      Step c ⟨i, .beginStale⟩
        { c with
          inProgress := (Function.update c.inProgress t.shop true),
          tasks := c.tasks.set i { t with pc := .staleRead } }
  | beginFetch {c : SyncConfig} {i : ℕ} {t : Task}
      (hget : c.tasks.get? i = some t) (hpc : t.pc = .notStarted)
      (hguard : c.inProgress t.shop = false ∨ t.force = true) :
      Step c ⟨i, .beginFetch⟩
        { c with
          inProgress := (Function.update c.inProgress t.shop true),
          tasks := c.tasks.set i { t with pc := .fetching } }
  | endShortRead {c : SyncConfig} {i : ℕ} {t : Task}
      (hget : c.tasks.get? i = some t) (hpc : t.pc = .shortRead) :
      Step c ⟨i, .endShortRead⟩
        { c with tasks := c.tasks.set i { t with pc := .done, ret := some .backendRead } }
  | endStaleRead {c : SyncConfig} {i : ℕ} {t : Task}
      (hget : c.tasks.get? i = some t) (hpc : t.pc = .staleRead) :
      Step c ⟨i, .endStaleRead⟩
        { c with
          inProgress := (Function.update c.inProgress t.shop false),
          tasks := c.tasks.set i { t with pc := .done, ret := some .backendRead } }
  | fetchFail {c : SyncConfig} {i : ℕ} {t : Task}
      (hget : c.tasks.get? i = some t) (hpc : t.pc = .fetching) :
      Step c ⟨i, .fetchFail⟩
        { c with
          inProgress := (Function.update c.inProgress t.shop false),
          tasks := c.tasks.set i { t with pc := .done, ret := some .threw } }
  | fetchEmpty {c : SyncConfig} {i : ℕ} {t : Task}
      (hget : c.tasks.get? i = some t) (hpc : t.pc = .fetching) :
      Step c ⟨i, .fetchEmpty⟩
        { c with
          inProgress := (Function.update c.inProgress t.shop false),
          tasks := c.tasks.set i { t with pc := .done, ret := some .emptyList } }
  | fetchSome {c : SyncConfig} {i : ℕ} {t : Task}
      (hget : c.tasks.get? i = some t) (hpc : t.pc = .fetching) :
      Step c ⟨i, .fetchSome⟩
        { c with tasks := c.tasks.set i { t with pc := .writing } }
  | endWrite {c : SyncConfig} {i : ℕ} {t : Task}
      (hget : c.tasks.get? i = some t) (hpc : t.pc = .writing) :
      Step c ⟨i, .endWrite⟩
        { c with tasks := c.tasks.set i { t with pc := .reading } }
  | endRead {c : SyncConfig} {i : ℕ} {t : Task} (now : ℕ)
      (hget : c.tasks.get? i = some t) (hpc : t.pc = .reading) :
      Step c ⟨i, .endRead now⟩
        { c with
          inProgress := (Function.update c.inProgress t.shop false),
          lastSync := (Function.update c.lastSync t.shop (some now)),
          tasks := c.tasks.set i { t with pc := .done, ret := some .backendRead } }

/-- Finite interleavings, labels in chronological order. -/
inductive Steps : SyncConfig → List Label → SyncConfig → Prop where
  | refl (c : SyncConfig) : Steps c [] c
  | snoc {c : SyncConfig} {ls : List Label} {c₁ : SyncConfig} {l : Label} {c₂ : SyncConfig} :
      Steps c ls c₁ → Step c₁ l c₂ → Steps c (ls ++ [l]) c₂

/-- A sync pass is in flight: the invocation is between the start of
its Shopify fetch and the end of its read-back. -/
def inFlight : Pc → Bool
  | .fetching => true
  | .writing => true
  | .reading => true
  | _ => false

/-- Positions that hold the shop's `syncInProgress` flag (the stale
read runs inside the `try`, so it holds the flag too). -/
def holdsFlag : Pc → Bool
  | .staleRead => true
  | p => inFlight p

/-- Fresh process state for a batch of invocations given as
`(shop, forceRefresh)` pairs. -/
def initConfig (calls : List (String × Bool)) : SyncConfig :=
  ⟨fun _ => false, fun _ => none, calls.map fun sf => ⟨sf.1, sf.2, .notStarted, none⟩⟩


lemma get?_set_same {α : Type} {l : List α} {i : ℕ} {b : α} (h : l.get? i = some b) (a : α) :
    (l.set i a).get? i = some a := by
  have hlt : i < l.length := by
    by_contra hge
    rw [List.get?_eq_none.mpr (Nat.le_of_not_lt hge)] at h
    exact Option.noConfusion h
  simp [List.get?_eq_getElem?, List.getElem?_set_self, hlt]

lemma get?_set_diff {α : Type} (l : List α) {i j : ℕ} (h : i ≠ j) (a : α) :
    (l.set i a).get? j = l.get? j := by
  simp [List.get?_eq_getElem?, List.getElem?_set_ne h]

/-- Every transition rewrites exactly one task, preserving its shop and
force flag. -/
lemma Step.tasks_shape {c : SyncConfig} {l : Label} {c₁ : SyncConfig} (hs : Step c l c₁) :
    ∃ t t', c.tasks.get? l.i = some t ∧ c₁.tasks = c.tasks.set l.i t' ∧
      t'.shop = t.shop ∧ t'.force = t.force := by
  cases hs with
  | guardHit hget hpc hflag hforce => exact ⟨_, _, hget, rfl, rfl, rfl⟩
  | beginStale hget hpc hflag hforce hlast => exact ⟨_, _, hget, rfl, rfl, rfl⟩
  | beginFetch hget hpc hguard => exact ⟨_, _, hget, rfl, rfl, rfl⟩
  | endShortRead hget hpc => exact ⟨_, _, hget, rfl, rfl, rfl⟩
  | endStaleRead hget hpc => exact ⟨_, _, hget, rfl, rfl, rfl⟩
  | fetchFail hget hpc => exact ⟨_, _, hget, rfl, rfl, rfl⟩
  | fetchEmpty hget hpc => exact ⟨_, _, hget, rfl, rfl, rfl⟩
  | fetchSome hget hpc => exact ⟨_, _, hget, rfl, rfl, rfl⟩
  | endWrite hget hpc => exact ⟨_, _, hget, rfl, rfl, rfl⟩
  | endRead now hget hpc => exact ⟨_, _, hget, rfl, rfl, rfl⟩

/-- All invocations in the batch are non-forced. -/
def AllNonForced (c : SyncConfig) : Prop :=
  ∀ i t, c.tasks.get? i = some t → t.force = false

/-- Inductive invariant for C5: a task whose position holds the flag
sees the flag set, and no two tasks of one shop hold it at once. -/
def Inv5 (c : SyncConfig) : Prop :=
  (∀ i t, c.tasks.get? i = some t → holdsFlag t.pc = true → c.inProgress t.shop = true) ∧
  (∀ i j ti tj, c.tasks.get? i = some ti → c.tasks.get? j = some tj → i ≠ j →
    ti.shop = tj.shop → holdsFlag ti.pc = true → holdsFlag tj.pc = true → False)

lemma allNonForced_step {c : SyncConfig} {l : Label} {c₁ : SyncConfig}
    (hs : Step c l c₁) (hnf : AllNonForced c) : AllNonForced c₁ := by
  obtain ⟨t, t', hget, htasks, _, hforce⟩ := hs.tasks_shape
  intro j tj hj
  rw [htasks] at hj
  by_cases hij : l.i = j
  · subst hij
    rw [get?_set_same hget] at hj
    cases hj
    rw [hforce]
    exact hnf _ t hget
  · rw [get?_set_diff _ hij] at hj
    exact hnf j tj hj

/-- Inv5 is preserved by a transition that leaves the flag map alone
and does not make its task newly hold the flag. -/
lemma inv5_same_flag {c : SyncConfig} {i : ℕ} {t t' : Task}
    (hget : c.tasks.get? i = some t)
    (hshop : t'.shop = t.shop)
    (hdown : holdsFlag t'.pc = true → holdsFlag t.pc = true)
    (hinv : Inv5 c) :
    Inv5 { c with tasks := c.tasks.set i t' } := by
  obtain ⟨ha, hb⟩ := hinv
  constructor
  · intro j tj hj hold
    by_cases hij : i = j
    · subst hij
      rw [get?_set_same hget] at hj
      cases hj
      rw [hshop]
      exact ha _ t hget (hdown hold)
    · rw [get?_set_diff _ hij] at hj
      exact ha j tj hj hold
  · intro j k tj tk hj hk hjk hshops holdj holdk
    by_cases hij : i = j <;> by_cases hik : i = k
    · exact absurd (hik.symm.trans hij) (fun h => hjk h.symm)
    · subst hij
      rw [get?_set_same hget] at hj
      cases hj
      rw [get?_set_diff _ hik] at hk
      exact hb i k t tk hget hk hjk (by rw [← hshop]; exact hshops) (hdown holdj) holdk
    · subst hik
      rw [get?_set_same hget] at hk
      cases hk
      rw [get?_set_diff _ hij] at hj
      exact hb j i tj t hj hget hjk (hshops.trans hshop) holdj (hdown holdk)
    · rw [get?_set_diff _ hij] at hj
      rw [get?_set_diff _ hik] at hk
      exact hb j k tj tk hj hk hjk hshops holdj holdk

/-- Inv5 is preserved when a task takes the (previously clear) flag of
its shop. -/
lemma inv5_acquire {c : SyncConfig} {i : ℕ} {t t' : Task}
    (hget : c.tasks.get? i = some t)
    (hshop : t'.shop = t.shop)
    (hflag : c.inProgress t.shop = false)
    (hinv : Inv5 c) :
    Inv5 { c with
      inProgress := (Function.update c.inProgress t.shop true),
      tasks := c.tasks.set i t' } := by
  obtain ⟨ha, hb⟩ := hinv
  constructor
  · intro j tj hj hold
    by_cases hij : i = j
    · subst hij
      rw [get?_set_same hget] at hj
      cases hj
      show (Function.update c.inProgress t.shop true) t'.shop = true
      rw [hshop, Function.update_same]
    · rw [get?_set_diff _ hij] at hj
      have htrue := ha j tj hj hold
      show (Function.update c.inProgress t.shop true) tj.shop = true
      by_cases hsh : tj.shop = t.shop
      · rw [hsh, Function.update_same]
      · rw [Function.update_noteq hsh]
        exact htrue
  · intro j k tj tk hj hk hjk hshops holdj holdk
    by_cases hij : i = j <;> by_cases hik : i = k
    · exact absurd (hik.symm.trans hij) (fun h => hjk h.symm)
    · subst hij
      rw [get?_set_same hget] at hj
      cases hj
      rw [get?_set_diff _ hik] at hk
      have := ha k tk hk holdk
      rw [← hshops, hshop] at this
      rw [this] at hflag
      exact Bool.noConfusion hflag
    · subst hik
      rw [get?_set_same hget] at hk
      cases hk
      rw [get?_set_diff _ hij] at hj
      have := ha j tj hj holdj
      rw [hshops, hshop] at this
      rw [this] at hflag
      exact Bool.noConfusion hflag
    · rw [get?_set_diff _ hij] at hj
      rw [get?_set_diff _ hik] at hk
      exact hb j k tj tk hj hk hjk hshops holdj holdk

/-- Inv5 is preserved when a flag-holding task finishes and releases
its shop's flag. -/
lemma inv5_release {c : SyncConfig} {i : ℕ} {t t' : Task}
    (hget : c.tasks.get? i = some t)
    (hshop : t'.shop = t.shop)
    (hold : holdsFlag t.pc = true)
    (hnew : holdsFlag t'.pc = false)
    (hinv : Inv5 c) :
    Inv5 { c with
      inProgress := (Function.update c.inProgress t.shop false),
      tasks := c.tasks.set i t' } := by
  obtain ⟨ha, hb⟩ := hinv
  constructor
  · intro j tj hj holdj
    by_cases hij : i = j
    · subst hij
      rw [get?_set_same hget] at hj
      cases hj
      rw [hnew] at holdj
      exact Bool.noConfusion holdj
    · rw [get?_set_diff _ hij] at hj
      have htrue := ha j tj hj holdj
      show (Function.update c.inProgress t.shop false) tj.shop = true
      by_cases hsh : tj.shop = t.shop
      · exact absurd (hb i j t tj hget hj hij hsh.symm hold holdj) not_false
      · rw [Function.update_noteq hsh]
        exact htrue
  · intro j k tj tk hj hk hjk hshops holdj holdk
    by_cases hij : i = j <;> by_cases hik : i = k
    · exact absurd (hik.symm.trans hij) (fun h => hjk h.symm)
    · subst hij
      rw [get?_set_same hget] at hj
      cases hj
      rw [hnew] at holdj
      exact Bool.noConfusion holdj
    · subst hik
      rw [get?_set_same hget] at hk
      cases hk
      rw [hnew] at holdk
      exact Bool.noConfusion holdk
    · rw [get?_set_diff _ hij] at hj
      rw [get?_set_diff _ hik] at hk
      exact hb j k tj tk hj hk hjk hshops holdj holdk


lemma inFlight_holdsFlag {p : Pc} (h : inFlight p = true) : holdsFlag p = true := by
  cases p <;> first | rfl | exact absurd h (by decide)

lemma inv5_step {c : SyncConfig} {l : Label} {c₁ : SyncConfig}
    (hnf : AllNonForced c) (hinv : Inv5 c) (hs : Step c l c₁) : Inv5 c₁ := by
  cases hs with
  | guardHit hget hpc hflag hforce =>
    exact inv5_same_flag hget rfl (fun h => Bool.noConfusion h) hinv
  | beginStale hget hpc hflag hforce hlast =>
    exact inv5_acquire hget rfl hflag hinv
  | beginFetch hget hpc hguard =>
    refine inv5_acquire hget rfl ?_ hinv
    rcases hguard with h | h
    · exact h
    · rw [hnf _ _ hget] at h
      exact Bool.noConfusion h
  | endShortRead hget hpc =>
    exact inv5_same_flag hget rfl (fun h => Bool.noConfusion h) hinv
  | endStaleRead hget hpc =>
    exact inv5_release hget rfl (by rw [hpc]; rfl) rfl hinv
  | fetchFail hget hpc =>
    exact inv5_release hget rfl (by rw [hpc]; rfl) rfl hinv
  | fetchEmpty hget hpc =>
    exact inv5_release hget rfl (by rw [hpc]; rfl) rfl hinv
  | fetchSome hget hpc =>
    exact inv5_same_flag hget rfl (fun _ => by rw [hpc]; rfl) hinv
  | endWrite hget hpc =>
    exact inv5_same_flag hget rfl (fun _ => by rw [hpc]; rfl) hinv
  | endRead now hget hpc =>
    exact inv5_release hget rfl (by rw [hpc]; rfl) rfl hinv

lemma initConfig_get? {calls : List (String × Bool)} {i : ℕ} {t : Task}
    (h : (initConfig calls).tasks.get? i = some t) :
    ∃ sf, calls.get? i = some sf ∧ t = ⟨sf.1, sf.2, .notStarted, none⟩ := by
  simp only [initConfig, List.get?_map] at h
  rcases hc : calls.get? i with _ | sf
  · rw [hc] at h
    exact Option.noConfusion h
  · rw [hc] at h
    exact ⟨sf, rfl, (Option.some.injEq _ _ ▸ h).symm⟩

lemma inv5_init (calls : List (String × Bool)) : Inv5 (initConfig calls) := by
  constructor
  · intro i t hget hold
    obtain ⟨sf, _, ht⟩ := initConfig_get? hget
    rw [ht] at hold
    exact Bool.noConfusion hold
  · intro j k tj tk hj hk hjk hsh holdj holdk
    obtain ⟨sf, _, ht⟩ := initConfig_get? hj
    rw [ht] at holdj
    exact Bool.noConfusion holdj

lemma allNonForced_init {calls : List (String × Bool)}
    (h : ∀ sf ∈ calls, sf.2 = false) : AllNonForced (initConfig calls) := by
  intro i t hget
  obtain ⟨sf, hc, ht⟩ := initConfig_get? hget
  rw [ht]
  exact h sf (List.get?_mem hc)

lemma inv5_steps {c : SyncConfig} {ls : List Label} {c₁ : SyncConfig}
    (hsteps : Steps c ls c₁) (hnf : AllNonForced c) (hinv : Inv5 c) :
    Inv5 c₁ ∧ AllNonForced c₁ := by
  induction hsteps with
  | refl => exact ⟨hinv, hnf⟩
  | snoc hst hs ih =>
    obtain ⟨hi, hn⟩ := ih
    exact ⟨inv5_step hn hi hs, allNonForced_step hs hn⟩

/-- C5 (amended): in every reachable interleaving in which no call
passes `forceRefresh`, at most one sync pass is in flight per shop at
any time. -/
theorem c5_mutual_exclusion_nonforced (calls : List (String × Bool)) (ls : List Label)
    (c : SyncConfig) (hsteps : Steps (initConfig calls) ls c)
    (hnf : ∀ sf ∈ calls, sf.2 = false) :
    ∀ i j ti tj, c.tasks.get? i = some ti → c.tasks.get? j = some tj → i ≠ j →
      ti.shop = tj.shop → ¬(inFlight ti.pc = true ∧ inFlight tj.pc = true) := by
  obtain ⟨⟨ha, hb⟩, _⟩ :=
    inv5_steps hsteps (allNonForced_init hnf) (inv5_init calls)
  intro i j ti tj hi hj hij hsh hff
  exact hb i j ti tj hi hj hij hsh (inFlight_holdsFlag hff.1) (inFlight_holdsFlag hff.2)


/-- Two forced invocations for shop `"s"`. -/
def c5Init : SyncConfig := initConfig [("s", true), ("s", true)]

/-- The state after the first forced call has started its fetch. -/
def c5MidConfig : SyncConfig :=
  ⟨Function.update (fun _ => false) "s" true,
   fun _ => none,
   [⟨"s", true, .fetching, none⟩, ⟨"s", true, .notStarted, none⟩]⟩

/-- The state reached when two forced calls for shop `"s"` have both
passed the guard and started Shopify fetches. -/
def c5BadConfig : SyncConfig :=
  ⟨Function.update (Function.update (fun _ => false) "s" true) "s" true,
   fun _ => none,
   [⟨"s", true, .fetching, none⟩, ⟨"s", true, .fetching, none⟩]⟩

/-- C5 (counterexample): with `forceRefresh` the guard is bypassed —
after two steps both forced invocations for the same shop are in
flight simultaneously, so the claim's "regardless of the options
passed" is false. -/
theorem c5_counterexample :
    Steps c5Init [⟨0, .beginFetch⟩, ⟨1, .beginFetch⟩] c5BadConfig ∧
    c5BadConfig.tasks.get? 0 = some ⟨"s", true, .fetching, none⟩ ∧
    c5BadConfig.tasks.get? 1 = some ⟨"s", true, .fetching, none⟩ ∧
    inFlight Pc.fetching = true := by
  refine ⟨?_, rfl, rfl, rfl⟩
  have s1 : Step c5Init ⟨0, .beginFetch⟩ c5MidConfig :=
    @Step.beginFetch c5Init 0 ⟨"s", true, .notStarted, none⟩ rfl rfl (Or.inr rfl)
  have s2 : Step c5MidConfig ⟨1, .beginFetch⟩ c5BadConfig :=
    @Step.beginFetch c5MidConfig 1 ⟨"s", true, .notStarted, none⟩ rfl rfl (Or.inr rfl)
  exact Steps.snoc (Steps.snoc (Steps.refl c5Init) s1) s2


/-- Occurrences of event `e` for task `i` in a trace. -/
def cnt (ls : List Label) (i : ℕ) (e : Ev) : ℕ := ls.count ⟨i, e⟩

lemma cnt_snoc (ls : List Label) (l : Label) (i : ℕ) (e : Ev) :
    cnt (ls ++ [l]) i e = cnt ls i e + (if l = ⟨i, e⟩ then 1 else 0) := by
  simp [cnt, List.count_append, List.count_cons, List.count_nil, beq_iff_eq]

lemma get?_two {t0 t1 : Task} {i : ℕ} {t : Task}
    (h : ([t0, t1] : List Task).get? i = some t) :
    (i = 0 ∧ t0 = t) ∨ (i = 1 ∧ t1 = t) := by
  match i with
  | 0 => exact Or.inl ⟨rfl, Option.some.injEq _ _ ▸ h⟩
  | 1 => exact Or.inr ⟨rfl, Option.some.injEq _ _ ▸ h⟩
  | n + 2 => exact Option.noConfusion h

/-- Event-count coherence of one task's program counter. -/
def TaskCounts (ls : List Label) (i : ℕ) (t : Task) : Prop :=
  match t.pc with
  | .notStarted => cnt ls i .guardHit = 0 ∧ cnt ls i .beginFetch = 0 ∧
      cnt ls i .beginStale = 0 ∧ cnt ls i .endWrite = 0
  | .shortRead => cnt ls i .guardHit = 1 ∧ cnt ls i .beginFetch = 0 ∧
      cnt ls i .beginStale = 0 ∧ cnt ls i .endWrite = 0
  | .staleRead => cnt ls i .guardHit = 0 ∧ cnt ls i .beginFetch = 0 ∧
      cnt ls i .beginStale = 1 ∧ cnt ls i .endWrite = 0
  | .fetching => cnt ls i .guardHit = 0 ∧ cnt ls i .beginFetch = 1 ∧
      cnt ls i .beginStale = 0 ∧ cnt ls i .endWrite = 0
  | .writing => cnt ls i .guardHit = 0 ∧ cnt ls i .beginFetch = 1 ∧
      cnt ls i .beginStale = 0 ∧ cnt ls i .endWrite = 0
  | .reading => cnt ls i .guardHit = 0 ∧ cnt ls i .beginFetch = 1 ∧
      cnt ls i .beginStale = 0 ∧ cnt ls i .endWrite = 1
  | .done =>
      (cnt ls i .guardHit = 1 ∧ cnt ls i .beginFetch = 0 ∧ cnt ls i .beginStale = 0 ∧
        cnt ls i .endWrite = 0 ∧ t.ret = some .backendRead) ∨
      (cnt ls i .guardHit = 0 ∧ cnt ls i .beginFetch = 0 ∧ cnt ls i .beginStale = 1 ∧
        cnt ls i .endWrite = 0) ∨
      (cnt ls i .guardHit = 0 ∧ cnt ls i .beginFetch = 1 ∧ cnt ls i .beginStale = 0 ∧
        cnt ls i .endWrite ≤ 1)

/-- The trace invariant of the two-invocation non-forced system for one
shop. -/
def TwoInv (s : String) (ls : List Label) (c : SyncConfig) : Prop :=
  ∃ t0 t1,
    c.tasks = [t0, t1] ∧
    t0.shop = s ∧ t1.shop = s ∧ t0.force = false ∧ t1.force = false ∧
    TaskCounts ls 0 t0 ∧ TaskCounts ls 1 t1 ∧
    (∀ l ∈ ls, l.i = 0 ∨ l.i = 1) ∧
    c.inProgress s = (holdsFlag t0.pc || holdsFlag t1.pc) ∧
    ¬(holdsFlag t0.pc = true ∧ holdsFlag t1.pc = true) ∧
    (c.lastSync s ≠ none →
      (t0.pc = .done ∧ cnt ls 0 .beginFetch = 1) ∨
      (t1.pc = .done ∧ cnt ls 1 .beginFetch = 1)) ∧
    (t0.pc = .staleRead → t1.pc = .done ∧ cnt ls 1 .beginFetch = 1) ∧
    (t1.pc = .staleRead → t0.pc = .done ∧ cnt ls 0 .beginFetch = 1) ∧
    (1 ≤ cnt ls 0 .guardHit + cnt ls 1 .guardHit →
      cnt ls 0 .beginFetch + cnt ls 1 .beginFetch = 1)


lemma cnt_snoc_self (ls : List Label) (i : ℕ) (e : Ev) :
    cnt (ls ++ [⟨i, e⟩]) i e = cnt ls i e + 1 := by
  rw [cnt_snoc, if_pos rfl]

lemma cnt_snoc_ne (ls : List Label) {l : Label} {i : ℕ} {e : Ev} (h : l ≠ ⟨i, e⟩) :
    cnt (ls ++ [l]) i e = cnt ls i e := by
  rw [cnt_snoc, if_neg h, Nat.add_zero]

lemma taskCounts_stable {ls : List Label} {i : ℕ} {t : Task} {l : Label}
    (hg : l ≠ ⟨i, .guardHit⟩) (hb : l ≠ ⟨i, .beginFetch⟩) (hsb : l ≠ ⟨i, .beginStale⟩)
    (hw : l ≠ ⟨i, .endWrite⟩) (hc : TaskCounts ls i t) : TaskCounts (ls ++ [l]) i t := by
  unfold TaskCounts at hc ⊢
  rw [cnt_snoc_ne ls hg, cnt_snoc_ne ls hb, cnt_snoc_ne ls hsb, cnt_snoc_ne ls hw]
  exact hc

lemma taskCounts_gh_pos {ls : List Label} {i : ℕ} {t : Task}
    (hc : TaskCounts ls i t) (h : 1 ≤ cnt ls i .guardHit) :
    cnt ls i .guardHit = 1 ∧ cnt ls i .beginFetch = 0 := by
  unfold TaskCounts at hc
  rcases hpc : t.pc with _ | _ | _ | _ | _ | _ | _ <;> rw [hpc] at hc
  · omega
  · exact ⟨hc.1, hc.2.1⟩
  · omega
  · omega
  · omega
  · omega
  · rcases hc with ⟨h1, h2, _⟩ | ⟨h1, _⟩ | ⟨h1, _⟩
    · exact ⟨h1, h2⟩
    · omega
    · omega

lemma taskCounts_inflight {ls : List Label} {i : ℕ} {t : Task}
    (hc : TaskCounts ls i t) (h : inFlight t.pc = true) :
    cnt ls i .beginFetch = 1 ∧ cnt ls i .guardHit = 0 := by
  unfold TaskCounts at hc
  rcases hpc : t.pc with _ | _ | _ | _ | _ | _ | _ <;> rw [hpc] at hc <;> rw [hpc] at h
  · exact Bool.noConfusion h
  · exact Bool.noConfusion h
  · exact Bool.noConfusion h
  · exact ⟨hc.2.1, hc.1⟩
  · exact ⟨hc.2.1, hc.1⟩
  · exact ⟨hc.2.1, hc.1⟩
  · exact Bool.noConfusion h

lemma holdsFlag_cases {p : Pc} (h : holdsFlag p = true) :
    p = .staleRead ∨ inFlight p = true := by
  cases p <;> first | exact Or.inl rfl | exact Or.inr rfl | exact Bool.noConfusion h


lemma twoInv_step {s : String} {ls : List Label} {c : SyncConfig} {l : Label} {c₁ : SyncConfig}
    (hinv : TwoInv s ls c) (hs : Step c l c₁) : TwoInv s (ls ++ [l]) c₁ := by
  obtain ⟨t0, t1, htasks, hsh0, hsh1, hf0, hf1, hc0, hc1, hidx, hflag, hnb, hlsc,
    hst0, hst1, hE⟩ := hinv
  cases hs with
  | guardHit hget hpc hflagStep hforce =>
    rw [htasks] at hget
    rcases get?_two hget with ⟨hi, ht⟩ | ⟨hi, ht⟩ <;> subst hi <;> subst ht
    · -- task 0 hits the guard
      rw [hsh0, hflag] at hflagStep
      unfold TaskCounts at hc0
      rw [hpc] at hc0
      obtain ⟨hg0, hb0, hs0', hw0⟩ := hc0
      have hh0 : holdsFlag t0.pc = false := by rw [hpc]; rfl
      rw [hh0, Bool.false_or] at hflagStep
      obtain ⟨hb1, hg1⟩ := taskCounts_inflight hc1 (by
        rcases holdsFlag_cases hflagStep with h | h
        · obtain ⟨hd, _⟩ := hst1 h
          rw [hpc] at hd
          exact Pc.noConfusion hd
        · exact h)
      refine ⟨{ t0 with pc := .shortRead }, t1, by rw [htasks]; rfl, hsh0, hsh1, hf0, hf1,
        ?_, ?_, ?_, ?_, ?_, ?_, ?_, ?_, ?_⟩
      · show cnt _ 0 .guardHit = 1 ∧ cnt _ 0 .beginFetch = 0 ∧ cnt _ 0 .beginStale = 0 ∧
          cnt _ 0 .endWrite = 0
        rw [cnt_snoc_self, cnt_snoc_ne ls (by simp), cnt_snoc_ne ls (by simp),
          cnt_snoc_ne ls (by simp), hg0, hb0, hs0', hw0]
        exact ⟨rfl, rfl, rfl, rfl⟩
      · exact taskCounts_stable (by simp) (by simp) (by simp) (by simp) hc1
      · intro l' hl'
        rcases List.mem_append.mp hl' with h | h
        · exact hidx l' h
        · rw [List.mem_singleton.mp h]
          exact Or.inl rfl
      · show c.inProgress s = (holdsFlag Pc.shortRead || holdsFlag t1.pc)
        rw [hflag, hh0]
        rfl
      · show ¬(holdsFlag Pc.shortRead = true ∧ holdsFlag t1.pc = true)
        rintro ⟨h, _⟩
        exact Bool.noConfusion h
      · intro hne
        rcases hlsc hne with ⟨hd, _⟩ | ⟨hd, hcnt⟩
        · rw [hpc] at hd
          exact Pc.noConfusion hd
        · exact Or.inr ⟨hd, by rw [cnt_snoc_ne ls (by simp)]; exact hcnt⟩
      · intro h
        exact Pc.noConfusion h
      · intro h
        obtain ⟨hd, _⟩ := hst1 h
        rw [hpc] at hd
        exact Pc.noConfusion hd
      · intro _
        rw [cnt_snoc_ne ls (by simp), cnt_snoc_ne ls (by simp), hb0, hb1]
    · -- task 1 hits the guard
      rw [hsh1, hflag] at hflagStep
      unfold TaskCounts at hc1
      rw [hpc] at hc1
      obtain ⟨hg1, hb1, hs1', hw1⟩ := hc1
      have hh1 : holdsFlag t1.pc = false := by rw [hpc]; rfl
      rw [hh1, Bool.or_false] at hflagStep
      obtain ⟨hb0, hg0⟩ := taskCounts_inflight hc0 (by
        rcases holdsFlag_cases hflagStep with h | h
        · obtain ⟨hd, _⟩ := hst0 h
          rw [hpc] at hd
          exact Pc.noConfusion hd
        · exact h)
      refine ⟨t0, { t1 with pc := .shortRead }, by rw [htasks]; rfl, hsh0, hsh1, hf0, hf1,
        ?_, ?_, ?_, ?_, ?_, ?_, ?_, ?_, ?_⟩
      · exact taskCounts_stable (by simp) (by simp) (by simp) (by simp) hc0
      · show cnt _ 1 .guardHit = 1 ∧ cnt _ 1 .beginFetch = 0 ∧ cnt _ 1 .beginStale = 0 ∧
          cnt _ 1 .endWrite = 0
        rw [cnt_snoc_self, cnt_snoc_ne ls (by simp), cnt_snoc_ne ls (by simp),
          cnt_snoc_ne ls (by simp), hg1, hb1, hs1', hw1]
        exact ⟨rfl, rfl, rfl, rfl⟩
      · intro l' hl'
        rcases List.mem_append.mp hl' with h | h
        · exact hidx l' h
        · rw [List.mem_singleton.mp h]
          exact Or.inr rfl
      · show c.inProgress s = (holdsFlag t0.pc || holdsFlag Pc.shortRead)
        rw [hflag, hh1]
        rfl
      · show ¬(holdsFlag t0.pc = true ∧ holdsFlag Pc.shortRead = true)
        rintro ⟨_, h⟩
        exact Bool.noConfusion h
      · intro hne
        rcases hlsc hne with ⟨hd, hcnt⟩ | ⟨hd, _⟩
        · exact Or.inl ⟨hd, by rw [cnt_snoc_ne ls (by simp)]; exact hcnt⟩
        · rw [hpc] at hd
          exact Pc.noConfusion hd
      · intro h
        obtain ⟨hd, _⟩ := hst0 h
        rw [hpc] at hd
        exact Pc.noConfusion hd
      · intro h
        exact Pc.noConfusion h
      · intro _
        rw [cnt_snoc_ne ls (by simp), cnt_snoc_ne ls (by simp), hb0, hb1]
  | beginStale hget hpc hflagStep hforce hlast =>
    rw [htasks] at hget
    rcases get?_two hget with ⟨hi, ht⟩ | ⟨hi, ht⟩ <;> subst hi <;> subst ht
    · rw [hsh0] at hflagStep hlast
      have horr : (holdsFlag t0.pc || holdsFlag t1.pc) = false := by
        rw [← hflag]
        exact hflagStep
      obtain ⟨hh0, hh1⟩ := Bool.or_eq_false_iff.mp horr
      obtain ⟨hd1, hbf1⟩ : t1.pc = Pc.done ∧ cnt ls 1 Ev.beginFetch = 1 := by
        rcases hlsc hlast with ⟨hd, _⟩ | h
        · rw [hpc] at hd
          exact Pc.noConfusion hd
        · exact h
      unfold TaskCounts at hc0
      rw [hpc] at hc0
      obtain ⟨hg0, hb0, hs0', hw0⟩ := hc0
      refine ⟨{ t0 with pc := .staleRead }, t1, by rw [htasks]; rfl, hsh0, hsh1, hf0, hf1,
        ?_, ?_, ?_, ?_, ?_, ?_, ?_, ?_, ?_⟩
      · show cnt _ 0 .guardHit = 0 ∧ cnt _ 0 .beginFetch = 0 ∧ cnt _ 0 .beginStale = 1 ∧
          cnt _ 0 .endWrite = 0
        rw [cnt_snoc_self, cnt_snoc_ne ls (by simp), cnt_snoc_ne ls (by simp),
          cnt_snoc_ne ls (by simp), hg0, hb0, hs0', hw0]
        exact ⟨rfl, rfl, rfl, rfl⟩
      · exact taskCounts_stable (by simp) (by simp) (by simp) (by simp) hc1
      · intro l' hl'
        rcases List.mem_append.mp hl' with h | h
        · exact hidx l' h
        · rw [List.mem_singleton.mp h]
          exact Or.inl rfl
      · show (Function.update c.inProgress t0.shop true) s =
          (holdsFlag Pc.staleRead || holdsFlag t1.pc)
        rw [hsh0, Function.update_same]
        rfl
      · rintro ⟨_, h⟩
        rw [h] at hh1
        exact Bool.noConfusion hh1
      · intro _
        exact Or.inr ⟨hd1, by rw [cnt_snoc_ne ls (by simp)]; exact hbf1⟩
      · intro _
        exact ⟨hd1, by rw [cnt_snoc_ne ls (by simp)]; exact hbf1⟩
      · intro h
        rw [h] at hh1
        exact Bool.noConfusion hh1
      · intro h
        rw [cnt_snoc_ne ls (by simp), cnt_snoc_ne ls (by simp)] at h
        rw [cnt_snoc_ne ls (by simp), cnt_snoc_ne ls (by simp)]
        exact hE h
    · rw [hsh1] at hflagStep hlast
      have horr : (holdsFlag t0.pc || holdsFlag t1.pc) = false := by
        rw [← hflag]
        exact hflagStep
      obtain ⟨hh0, hh1⟩ := Bool.or_eq_false_iff.mp horr
      obtain ⟨hd0, hbf0⟩ : t0.pc = Pc.done ∧ cnt ls 0 Ev.beginFetch = 1 := by
        rcases hlsc hlast with h | ⟨hd, _⟩
        · exact h
        · rw [hpc] at hd
          exact Pc.noConfusion hd
      unfold TaskCounts at hc1
      rw [hpc] at hc1
      obtain ⟨hg1, hb1, hs1', hw1⟩ := hc1
      refine ⟨t0, { t1 with pc := .staleRead }, by rw [htasks]; rfl, hsh0, hsh1, hf0, hf1,
        ?_, ?_, ?_, ?_, ?_, ?_, ?_, ?_, ?_⟩
      · exact taskCounts_stable (by simp) (by simp) (by simp) (by simp) hc0
      · show cnt _ 1 .guardHit = 0 ∧ cnt _ 1 .beginFetch = 0 ∧ cnt _ 1 .beginStale = 1 ∧
          cnt _ 1 .endWrite = 0
        rw [cnt_snoc_self, cnt_snoc_ne ls (by simp), cnt_snoc_ne ls (by simp),
          cnt_snoc_ne ls (by simp), hg1, hb1, hs1', hw1]
        exact ⟨rfl, rfl, rfl, rfl⟩
      · intro l' hl'
        rcases List.mem_append.mp hl' with h | h
        · exact hidx l' h
        · rw [List.mem_singleton.mp h]
          exact Or.inr rfl
      · show (Function.update c.inProgress t1.shop true) s =
          (holdsFlag t0.pc || holdsFlag Pc.staleRead)
        rw [hsh1, Function.update_same, Bool.or_comm]
        rfl
      · rintro ⟨h, _⟩
        rw [h] at hh0
        exact Bool.noConfusion hh0
      · intro _
        exact Or.inl ⟨hd0, by rw [cnt_snoc_ne ls (by simp)]; exact hbf0⟩
      · intro h
        rw [h] at hh0
        exact Bool.noConfusion hh0
      · intro _
        exact ⟨hd0, by rw [cnt_snoc_ne ls (by simp)]; exact hbf0⟩
      · intro h
        rw [cnt_snoc_ne ls (by simp), cnt_snoc_ne ls (by simp)] at h
        rw [cnt_snoc_ne ls (by simp), cnt_snoc_ne ls (by simp)]
        exact hE h
  | beginFetch hget hpc hguard =>
    rw [htasks] at hget
    rcases get?_two hget with ⟨hi, ht⟩ | ⟨hi, ht⟩ <;> subst hi <;> subst ht
    · have hflagStep : c.inProgress t0.shop = false := by
        rcases hguard with h | h
        · exact h
        · rw [hf0] at h
          exact Bool.noConfusion h
      rw [hsh0] at hflagStep
      have horr : (holdsFlag t0.pc || holdsFlag t1.pc) = false := by
        rw [← hflag]
        exact hflagStep
      obtain ⟨hh0, hh1⟩ := Bool.or_eq_false_iff.mp horr
      unfold TaskCounts at hc0
      rw [hpc] at hc0
      obtain ⟨hg0, hb0, hs0', hw0⟩ := hc0
      refine ⟨{ t0 with pc := .fetching }, t1, by rw [htasks]; rfl, hsh0, hsh1, hf0, hf1,
        ?_, ?_, ?_, ?_, ?_, ?_, ?_, ?_, ?_⟩
      · show cnt _ 0 .guardHit = 0 ∧ cnt _ 0 .beginFetch = 1 ∧ cnt _ 0 .beginStale = 0 ∧
          cnt _ 0 .endWrite = 0
        rw [cnt_snoc_self, cnt_snoc_ne ls (by simp), cnt_snoc_ne ls (by simp),
          cnt_snoc_ne ls (by simp), hg0, hb0, hs0', hw0]
        exact ⟨rfl, rfl, rfl, rfl⟩
      · exact taskCounts_stable (by simp) (by simp) (by simp) (by simp) hc1
      · intro l' hl'
        rcases List.mem_append.mp hl' with h | h
        · exact hidx l' h
        · rw [List.mem_singleton.mp h]
          exact Or.inl rfl
      · show (Function.update c.inProgress t0.shop true) s =
          (holdsFlag Pc.fetching || holdsFlag t1.pc)
        rw [hsh0, Function.update_same]
        rfl
      · rintro ⟨_, h⟩
        rw [h] at hh1
        exact Bool.noConfusion hh1
      · intro hne
        rcases hlsc hne with ⟨hd, _⟩ | ⟨hd, hcnt⟩
        · rw [hpc] at hd
          exact Pc.noConfusion hd
        · exact Or.inr ⟨hd, by rw [cnt_snoc_ne ls (by simp)]; exact hcnt⟩
      · intro h
        exact Pc.noConfusion h
      · intro h
        obtain ⟨hd, _⟩ := hst1 h
        rw [hpc] at hd
        exact Pc.noConfusion hd
      · intro h
        exfalso
        rw [cnt_snoc_ne ls (by simp), cnt_snoc_ne ls (by simp)] at h
        have hgh1 : 1 ≤ cnt ls 1 Ev.guardHit := by omega
        obtain ⟨_, hbf1z⟩ := taskCounts_gh_pos hc1 hgh1
        have := hE h
        omega
    · have hflagStep : c.inProgress t1.shop = false := by
        rcases hguard with h | h
        · exact h
        · rw [hf1] at h
          exact Bool.noConfusion h
      rw [hsh1] at hflagStep
      have horr : (holdsFlag t0.pc || holdsFlag t1.pc) = false := by
        rw [← hflag]
        exact hflagStep
      obtain ⟨hh0, hh1⟩ := Bool.or_eq_false_iff.mp horr
      unfold TaskCounts at hc1
      rw [hpc] at hc1
      obtain ⟨hg1, hb1, hs1', hw1⟩ := hc1
      refine ⟨t0, { t1 with pc := .fetching }, by rw [htasks]; rfl, hsh0, hsh1, hf0, hf1,
        ?_, ?_, ?_, ?_, ?_, ?_, ?_, ?_, ?_⟩
      · exact taskCounts_stable (by simp) (by simp) (by simp) (by simp) hc0
      · show cnt _ 1 .guardHit = 0 ∧ cnt _ 1 .beginFetch = 1 ∧ cnt _ 1 .beginStale = 0 ∧
          cnt _ 1 .endWrite = 0
        rw [cnt_snoc_self, cnt_snoc_ne ls (by simp), cnt_snoc_ne ls (by simp),
          cnt_snoc_ne ls (by simp), hg1, hb1, hs1', hw1]
        exact ⟨rfl, rfl, rfl, rfl⟩
      · intro l' hl'
        rcases List.mem_append.mp hl' with h | h
        · exact hidx l' h
        · rw [List.mem_singleton.mp h]
          exact Or.inr rfl
      · show (Function.update c.inProgress t1.shop true) s =
          (holdsFlag t0.pc || holdsFlag Pc.fetching)
        rw [hsh1, Function.update_same, Bool.or_comm]
        rfl
      · rintro ⟨h, _⟩
        rw [h] at hh0
        exact Bool.noConfusion hh0
      · intro hne
        rcases hlsc hne with ⟨hd, hcnt⟩ | ⟨hd, _⟩
        · exact Or.inl ⟨hd, by rw [cnt_snoc_ne ls (by simp)]; exact hcnt⟩
        · rw [hpc] at hd
          exact Pc.noConfusion hd
      · intro h
        obtain ⟨hd, _⟩ := hst0 h
        rw [hpc] at hd
        exact Pc.noConfusion hd
      · intro h
        exact Pc.noConfusion h
      · intro h
        exfalso
        rw [cnt_snoc_ne ls (by simp), cnt_snoc_ne ls (by simp)] at h
        have hgh0 : 1 ≤ cnt ls 0 Ev.guardHit := by omega
        obtain ⟨_, hbf0z⟩ := taskCounts_gh_pos hc0 hgh0
        have := hE h
        omega
  | endShortRead hget hpc =>
    rw [htasks] at hget
    rcases get?_two hget with ⟨hi, ht⟩ | ⟨hi, ht⟩ <;> subst hi <;> subst ht
    · unfold TaskCounts at hc0
      rw [hpc] at hc0
      obtain ⟨hg0, hb0, hs0', hw0⟩ := hc0
      refine ⟨{ t0 with pc := .done, ret := some .backendRead }, t1, by rw [htasks]; rfl,
        hsh0, hsh1, hf0, hf1, ?_, ?_, ?_, ?_, ?_, ?_, ?_, ?_, ?_⟩
      · exact Or.inl ⟨by rw [cnt_snoc_ne ls (by simp)]; exact hg0,
          by rw [cnt_snoc_ne ls (by simp)]; exact hb0,
          by rw [cnt_snoc_ne ls (by simp)]; exact hs0',
          by rw [cnt_snoc_ne ls (by simp)]; exact hw0, rfl⟩
      · exact taskCounts_stable (by simp) (by simp) (by simp) (by simp) hc1
      · intro l' hl'
        rcases List.mem_append.mp hl' with h | h
        · exact hidx l' h
        · rw [List.mem_singleton.mp h]
          exact Or.inl rfl
      · show c.inProgress s = (holdsFlag Pc.done || holdsFlag t1.pc)
        rw [hflag, hpc]
        rfl
      · rintro ⟨h, _⟩
        exact Bool.noConfusion h
      · intro hne
        rcases hlsc hne with ⟨hd, _⟩ | ⟨hd, hcnt⟩
        · rw [hpc] at hd
          exact Pc.noConfusion hd
        · exact Or.inr ⟨hd, by rw [cnt_snoc_ne ls (by simp)]; exact hcnt⟩
      · intro h
        exact Pc.noConfusion h
      · intro h
        obtain ⟨hd, _⟩ := hst1 h
        rw [hpc] at hd
        exact Pc.noConfusion hd
      · intro h
        rw [cnt_snoc_ne ls (by simp), cnt_snoc_ne ls (by simp)] at h
        rw [cnt_snoc_ne ls (by simp), cnt_snoc_ne ls (by simp)]
        exact hE h
    · unfold TaskCounts at hc1
      rw [hpc] at hc1
      obtain ⟨hg1, hb1, hs1', hw1⟩ := hc1
      refine ⟨t0, { t1 with pc := .done, ret := some .backendRead }, by rw [htasks]; rfl,
        hsh0, hsh1, hf0, hf1, ?_, ?_, ?_, ?_, ?_, ?_, ?_, ?_, ?_⟩
      · exact taskCounts_stable (by simp) (by simp) (by simp) (by simp) hc0
      · exact Or.inl ⟨by rw [cnt_snoc_ne ls (by simp)]; exact hg1,
          by rw [cnt_snoc_ne ls (by simp)]; exact hb1,
          by rw [cnt_snoc_ne ls (by simp)]; exact hs1',
          by rw [cnt_snoc_ne ls (by simp)]; exact hw1, rfl⟩
      · intro l' hl'
        rcases List.mem_append.mp hl' with h | h
        · exact hidx l' h
        · rw [List.mem_singleton.mp h]
          exact Or.inr rfl
      · show c.inProgress s = (holdsFlag t0.pc || holdsFlag Pc.done)
        rw [hflag, hpc]
        rfl
      · rintro ⟨_, h⟩
        exact Bool.noConfusion h
      · intro hne
        rcases hlsc hne with ⟨hd, hcnt⟩ | ⟨hd, _⟩
        · exact Or.inl ⟨hd, by rw [cnt_snoc_ne ls (by simp)]; exact hcnt⟩
        · rw [hpc] at hd
          exact Pc.noConfusion hd
      · intro h
        obtain ⟨hd, _⟩ := hst0 h
        rw [hpc] at hd
        exact Pc.noConfusion hd
      · intro h
        exact Pc.noConfusion h
      · intro h
        rw [cnt_snoc_ne ls (by simp), cnt_snoc_ne ls (by simp)] at h
        rw [cnt_snoc_ne ls (by simp), cnt_snoc_ne ls (by simp)]
        exact hE h
  | endStaleRead hget hpc =>
    rw [htasks] at hget
    rcases get?_two hget with ⟨hi, ht⟩ | ⟨hi, ht⟩ <;> subst hi <;> subst ht
    · have hh1 : holdsFlag t1.pc = false := by
        cases hor : holdsFlag t1.pc
        · rfl
        · exact absurd ⟨by rw [hpc]; rfl, hor⟩ hnb
      obtain ⟨hd1, hbf1⟩ := hst0 hpc
      unfold TaskCounts at hc0
      rw [hpc] at hc0
      obtain ⟨hg0, hb0, hs0', hw0⟩ := hc0
      refine ⟨{ t0 with pc := .done, ret := some .backendRead }, t1, by rw [htasks]; rfl,
        hsh0, hsh1, hf0, hf1, ?_, ?_, ?_, ?_, ?_, ?_, ?_, ?_, ?_⟩
      · exact Or.inr (Or.inl ⟨by rw [cnt_snoc_ne ls (by simp)]; exact hg0,
          by rw [cnt_snoc_ne ls (by simp)]; exact hb0,
          by rw [cnt_snoc_ne ls (by simp)]; exact hs0',
          by rw [cnt_snoc_ne ls (by simp)]; exact hw0⟩)
      · exact taskCounts_stable (by simp) (by simp) (by simp) (by simp) hc1
      · intro l' hl'
        rcases List.mem_append.mp hl' with h | h
        · exact hidx l' h
        · rw [List.mem_singleton.mp h]
          exact Or.inl rfl
      · show (Function.update c.inProgress t0.shop false) s =
          (holdsFlag Pc.done || holdsFlag t1.pc)
        rw [hsh0, Function.update_same]
        show false = (false || holdsFlag t1.pc)
        rw [Bool.false_or]
        exact hh1.symm
      · rintro ⟨h, _⟩
        exact Bool.noConfusion h
      · intro _
        exact Or.inr ⟨hd1, by rw [cnt_snoc_ne ls (by simp)]; exact hbf1⟩
      · intro h
        exact Pc.noConfusion h
      · intro h
        rw [h] at hh1
        exact Bool.noConfusion hh1
      · intro h
        rw [cnt_snoc_ne ls (by simp), cnt_snoc_ne ls (by simp)] at h
        rw [cnt_snoc_ne ls (by simp), cnt_snoc_ne ls (by simp)]
        exact hE h
    · have hh0 : holdsFlag t0.pc = false := by
        cases hor : holdsFlag t0.pc
        · rfl
        · exact absurd ⟨hor, by rw [hpc]; rfl⟩ hnb
      obtain ⟨hd0, hbf0⟩ := hst1 hpc
      unfold TaskCounts at hc1
      rw [hpc] at hc1
      obtain ⟨hg1, hb1, hs1', hw1⟩ := hc1
      refine ⟨t0, { t1 with pc := .done, ret := some .backendRead }, by rw [htasks]; rfl,
        hsh0, hsh1, hf0, hf1, ?_, ?_, ?_, ?_, ?_, ?_, ?_, ?_, ?_⟩
      · exact taskCounts_stable (by simp) (by simp) (by simp) (by simp) hc0
      · exact Or.inr (Or.inl ⟨by rw [cnt_snoc_ne ls (by simp)]; exact hg1,
          by rw [cnt_snoc_ne ls (by simp)]; exact hb1,
          by rw [cnt_snoc_ne ls (by simp)]; exact hs1',
          by rw [cnt_snoc_ne ls (by simp)]; exact hw1⟩)
      · intro l' hl'
        rcases List.mem_append.mp hl' with h | h
        · exact hidx l' h
        · rw [List.mem_singleton.mp h]
          exact Or.inr rfl
      · show (Function.update c.inProgress t1.shop false) s =
          (holdsFlag t0.pc || holdsFlag Pc.done)
        rw [hsh1, Function.update_same]
        show false = (holdsFlag t0.pc || false)
        rw [Bool.or_false]
        exact hh0.symm
      · rintro ⟨_, h⟩
        exact Bool.noConfusion h
      · intro _
        exact Or.inl ⟨hd0, by rw [cnt_snoc_ne ls (by simp)]; exact hbf0⟩
      · intro h
        rw [h] at hh0
        exact Bool.noConfusion hh0
      · intro h
        exact Pc.noConfusion h
      · intro h
        rw [cnt_snoc_ne ls (by simp), cnt_snoc_ne ls (by simp)] at h
        rw [cnt_snoc_ne ls (by simp), cnt_snoc_ne ls (by simp)]
        exact hE h
  | fetchFail hget hpc =>
    rw [htasks] at hget
    rcases get?_two hget with ⟨hi, ht⟩ | ⟨hi, ht⟩ <;> subst hi <;> subst ht
    · have hh1 : holdsFlag t1.pc = false := by
        cases hor : holdsFlag t1.pc
        · rfl
        · exact absurd ⟨by rw [hpc]; rfl, hor⟩ hnb
      unfold TaskCounts at hc0
      rw [hpc] at hc0
      obtain ⟨hg0, hb0, hs0', hw0⟩ := hc0
      refine ⟨{ t0 with pc := .done, ret := some .threw }, t1, by rw [htasks]; rfl,
        hsh0, hsh1, hf0, hf1, ?_, ?_, ?_, ?_, ?_, ?_, ?_, ?_, ?_⟩
      · exact Or.inr (Or.inr ⟨by rw [cnt_snoc_ne ls (by simp)]; exact hg0,
          by rw [cnt_snoc_ne ls (by simp)]; exact hb0,
          by rw [cnt_snoc_ne ls (by simp)]; exact hs0',
          by rw [cnt_snoc_ne ls (by simp), hw0]; exact Nat.zero_le 1⟩)
      · exact taskCounts_stable (by simp) (by simp) (by simp) (by simp) hc1
      · intro l' hl'
        rcases List.mem_append.mp hl' with h | h
        · exact hidx l' h
        · rw [List.mem_singleton.mp h]
          exact Or.inl rfl
      · show (Function.update c.inProgress t0.shop false) s =
          (holdsFlag Pc.done || holdsFlag t1.pc)
        rw [hsh0, Function.update_same]
        show false = (false || holdsFlag t1.pc)
        rw [Bool.false_or]
        exact hh1.symm
      · rintro ⟨h, _⟩
        exact Bool.noConfusion h
      · intro _
        exact Or.inl ⟨rfl, by rw [cnt_snoc_ne ls (by simp)]; exact hb0⟩
      · intro h
        exact Pc.noConfusion h
      · intro h
        obtain ⟨hd, _⟩ := hst1 h
        rw [hpc] at hd
        exact Pc.noConfusion hd
      · intro h
        rw [cnt_snoc_ne ls (by simp), cnt_snoc_ne ls (by simp)] at h
        rw [cnt_snoc_ne ls (by simp), cnt_snoc_ne ls (by simp)]
        exact hE h
    · have hh0 : holdsFlag t0.pc = false := by
        cases hor : holdsFlag t0.pc
        · rfl
        · exact absurd ⟨hor, by rw [hpc]; rfl⟩ hnb
      unfold TaskCounts at hc1
      rw [hpc] at hc1
      obtain ⟨hg1, hb1, hs1', hw1⟩ := hc1
      refine ⟨t0, { t1 with pc := .done, ret := some .threw }, by rw [htasks]; rfl,
        hsh0, hsh1, hf0, hf1, ?_, ?_, ?_, ?_, ?_, ?_, ?_, ?_, ?_⟩
      · exact taskCounts_stable (by simp) (by simp) (by simp) (by simp) hc0
      · exact Or.inr (Or.inr ⟨by rw [cnt_snoc_ne ls (by simp)]; exact hg1,
          by rw [cnt_snoc_ne ls (by simp)]; exact hb1,
          by rw [cnt_snoc_ne ls (by simp)]; exact hs1',
          by rw [cnt_snoc_ne ls (by simp), hw1]; exact Nat.zero_le 1⟩)
      · intro l' hl'
        rcases List.mem_append.mp hl' with h | h
        · exact hidx l' h
        · rw [List.mem_singleton.mp h]
          exact Or.inr rfl
      · show (Function.update c.inProgress t1.shop false) s =
          (holdsFlag t0.pc || holdsFlag Pc.done)
        rw [hsh1, Function.update_same]
        show false = (holdsFlag t0.pc || false)
        rw [Bool.or_false]
        exact hh0.symm
      · rintro ⟨_, h⟩
        exact Bool.noConfusion h
      · intro _
        exact Or.inr ⟨rfl, by rw [cnt_snoc_ne ls (by simp)]; exact hb1⟩
      · intro h
        obtain ⟨hd, _⟩ := hst0 h
        rw [hpc] at hd
        exact Pc.noConfusion hd
      · intro h
        exact Pc.noConfusion h
      · intro h
        rw [cnt_snoc_ne ls (by simp), cnt_snoc_ne ls (by simp)] at h
        rw [cnt_snoc_ne ls (by simp), cnt_snoc_ne ls (by simp)]
        exact hE h
  | fetchEmpty hget hpc =>
    rw [htasks] at hget
    rcases get?_two hget with ⟨hi, ht⟩ | ⟨hi, ht⟩ <;> subst hi <;> subst ht
    · have hh1 : holdsFlag t1.pc = false := by
        cases hor : holdsFlag t1.pc
        · rfl
        · exact absurd ⟨by rw [hpc]; rfl, hor⟩ hnb
      unfold TaskCounts at hc0
      rw [hpc] at hc0
      obtain ⟨hg0, hb0, hs0', hw0⟩ := hc0
      refine ⟨{ t0 with pc := .done, ret := some .emptyList }, t1, by rw [htasks]; rfl,
        hsh0, hsh1, hf0, hf1, ?_, ?_, ?_, ?_, ?_, ?_, ?_, ?_, ?_⟩
      · exact Or.inr (Or.inr ⟨by rw [cnt_snoc_ne ls (by simp)]; exact hg0,
          by rw [cnt_snoc_ne ls (by simp)]; exact hb0,
          by rw [cnt_snoc_ne ls (by simp)]; exact hs0',
          by rw [cnt_snoc_ne ls (by simp), hw0]; exact Nat.zero_le 1⟩)
      · exact taskCounts_stable (by simp) (by simp) (by simp) (by simp) hc1
      · intro l' hl'
        rcases List.mem_append.mp hl' with h | h
        · exact hidx l' h
        · rw [List.mem_singleton.mp h]
          exact Or.inl rfl
      · show (Function.update c.inProgress t0.shop false) s =
          (holdsFlag Pc.done || holdsFlag t1.pc)
        rw [hsh0, Function.update_same]
        show false = (false || holdsFlag t1.pc)
        rw [Bool.false_or]
        exact hh1.symm
      · rintro ⟨h, _⟩
        exact Bool.noConfusion h
      · intro _
        exact Or.inl ⟨rfl, by rw [cnt_snoc_ne ls (by simp)]; exact hb0⟩
      · intro h
        exact Pc.noConfusion h
      · intro h
        obtain ⟨hd, _⟩ := hst1 h
        rw [hpc] at hd
        exact Pc.noConfusion hd
      · intro h
        rw [cnt_snoc_ne ls (by simp), cnt_snoc_ne ls (by simp)] at h
        rw [cnt_snoc_ne ls (by simp), cnt_snoc_ne ls (by simp)]
        exact hE h
    · have hh0 : holdsFlag t0.pc = false := by
        cases hor : holdsFlag t0.pc
        · rfl
        · exact absurd ⟨hor, by rw [hpc]; rfl⟩ hnb
      unfold TaskCounts at hc1
      rw [hpc] at hc1
      obtain ⟨hg1, hb1, hs1', hw1⟩ := hc1
      refine ⟨t0, { t1 with pc := .done, ret := some .emptyList }, by rw [htasks]; rfl,
        hsh0, hsh1, hf0, hf1, ?_, ?_, ?_, ?_, ?_, ?_, ?_, ?_, ?_⟩
      · exact taskCounts_stable (by simp) (by simp) (by simp) (by simp) hc0
      · exact Or.inr (Or.inr ⟨by rw [cnt_snoc_ne ls (by simp)]; exact hg1,
          by rw [cnt_snoc_ne ls (by simp)]; exact hb1,
          by rw [cnt_snoc_ne ls (by simp)]; exact hs1',
          by rw [cnt_snoc_ne ls (by simp), hw1]; exact Nat.zero_le 1⟩)
      · intro l' hl'
        rcases List.mem_append.mp hl' with h | h
        · exact hidx l' h
        · rw [List.mem_singleton.mp h]
          exact Or.inr rfl
      · show (Function.update c.inProgress t1.shop false) s =
          (holdsFlag t0.pc || holdsFlag Pc.done)
        rw [hsh1, Function.update_same]
        show false = (holdsFlag t0.pc || false)
        rw [Bool.or_false]
        exact hh0.symm
      · rintro ⟨_, h⟩
        exact Bool.noConfusion h
      · intro _
        exact Or.inr ⟨rfl, by rw [cnt_snoc_ne ls (by simp)]; exact hb1⟩
      · intro h
        obtain ⟨hd, _⟩ := hst0 h
        rw [hpc] at hd
        exact Pc.noConfusion hd
      · intro h
        exact Pc.noConfusion h
      · intro h
        rw [cnt_snoc_ne ls (by simp), cnt_snoc_ne ls (by simp)] at h
        rw [cnt_snoc_ne ls (by simp), cnt_snoc_ne ls (by simp)]
        exact hE h
  | fetchSome hget hpc =>
    rw [htasks] at hget
    rcases get?_two hget with ⟨hi, ht⟩ | ⟨hi, ht⟩ <;> subst hi <;> subst ht
    · unfold TaskCounts at hc0
      rw [hpc] at hc0
      obtain ⟨hg0, hb0, hs0', hw0⟩ := hc0
      refine ⟨{ t0 with pc := .writing }, t1, by rw [htasks]; rfl,
        hsh0, hsh1, hf0, hf1, ?_, ?_, ?_, ?_, ?_, ?_, ?_, ?_, ?_⟩
      · exact ⟨by rw [cnt_snoc_ne ls (by simp)]; exact hg0,
          by rw [cnt_snoc_ne ls (by simp)]; exact hb0,
          by rw [cnt_snoc_ne ls (by simp)]; exact hs0',
          by rw [cnt_snoc_ne ls (by simp)]; exact hw0⟩
      · exact taskCounts_stable (by simp) (by simp) (by simp) (by simp) hc1
      · intro l' hl'
        rcases List.mem_append.mp hl' with h | h
        · exact hidx l' h
        · rw [List.mem_singleton.mp h]
          exact Or.inl rfl
      · show c.inProgress s = (holdsFlag Pc.writing || holdsFlag t1.pc)
        rw [hflag, hpc]
        rfl
      · rintro ⟨_, h⟩
        exact hnb ⟨by rw [hpc]; rfl, h⟩
      · intro hne
        rcases hlsc hne with ⟨hd, _⟩ | ⟨hd, hcnt⟩
        · rw [hpc] at hd
          exact Pc.noConfusion hd
        · exact Or.inr ⟨hd, by rw [cnt_snoc_ne ls (by simp)]; exact hcnt⟩
      · intro h
        exact Pc.noConfusion h
      · intro h
        obtain ⟨hd, _⟩ := hst1 h
        rw [hpc] at hd
        exact Pc.noConfusion hd
      · intro h
        rw [cnt_snoc_ne ls (by simp), cnt_snoc_ne ls (by simp)] at h
        rw [cnt_snoc_ne ls (by simp), cnt_snoc_ne ls (by simp)]
        exact hE h
    · unfold TaskCounts at hc1
      rw [hpc] at hc1
      obtain ⟨hg1, hb1, hs1', hw1⟩ := hc1
      refine ⟨t0, { t1 with pc := .writing }, by rw [htasks]; rfl,
        hsh0, hsh1, hf0, hf1, ?_, ?_, ?_, ?_, ?_, ?_, ?_, ?_, ?_⟩
      · exact taskCounts_stable (by simp) (by simp) (by simp) (by simp) hc0
      · exact ⟨by rw [cnt_snoc_ne ls (by simp)]; exact hg1,
          by rw [cnt_snoc_ne ls (by simp)]; exact hb1,
          by rw [cnt_snoc_ne ls (by simp)]; exact hs1',
          by rw [cnt_snoc_ne ls (by simp)]; exact hw1⟩
      · intro l' hl'
        rcases List.mem_append.mp hl' with h | h
        · exact hidx l' h
        · rw [List.mem_singleton.mp h]
          exact Or.inr rfl
      · show c.inProgress s = (holdsFlag t0.pc || holdsFlag Pc.writing)
        rw [hflag, hpc]
        rfl
      · rintro ⟨h, _⟩
        exact hnb ⟨h, by rw [hpc]; rfl⟩
      · intro hne
        rcases hlsc hne with ⟨hd, hcnt⟩ | ⟨hd, _⟩
        · exact Or.inl ⟨hd, by rw [cnt_snoc_ne ls (by simp)]; exact hcnt⟩
        · rw [hpc] at hd
          exact Pc.noConfusion hd
      · intro h
        obtain ⟨hd, _⟩ := hst0 h
        rw [hpc] at hd
        exact Pc.noConfusion hd
      · intro h
        exact Pc.noConfusion h
      · intro h
        rw [cnt_snoc_ne ls (by simp), cnt_snoc_ne ls (by simp)] at h
        rw [cnt_snoc_ne ls (by simp), cnt_snoc_ne ls (by simp)]
        exact hE h
  | endWrite hget hpc =>
    rw [htasks] at hget
    rcases get?_two hget with ⟨hi, ht⟩ | ⟨hi, ht⟩ <;> subst hi <;> subst ht
    · unfold TaskCounts at hc0
      rw [hpc] at hc0
      obtain ⟨hg0, hb0, hs0', hw0⟩ := hc0
      refine ⟨{ t0 with pc := .reading }, t1, by rw [htasks]; rfl,
        hsh0, hsh1, hf0, hf1, ?_, ?_, ?_, ?_, ?_, ?_, ?_, ?_, ?_⟩
      · exact ⟨by rw [cnt_snoc_ne ls (by simp)]; exact hg0,
          by rw [cnt_snoc_ne ls (by simp)]; exact hb0,
          by rw [cnt_snoc_ne ls (by simp)]; exact hs0',
          by rw [cnt_snoc_self, hw0]⟩
      · exact taskCounts_stable (by simp) (by simp) (by simp) (by simp) hc1
      · intro l' hl'
        rcases List.mem_append.mp hl' with h | h
        · exact hidx l' h
        · rw [List.mem_singleton.mp h]
          exact Or.inl rfl
      · show c.inProgress s = (holdsFlag Pc.reading || holdsFlag t1.pc)
        rw [hflag, hpc]
        rfl
      · rintro ⟨_, h⟩
        exact hnb ⟨by rw [hpc]; rfl, h⟩
      · intro hne
        rcases hlsc hne with ⟨hd, _⟩ | ⟨hd, hcnt⟩
        · rw [hpc] at hd
          exact Pc.noConfusion hd
        · exact Or.inr ⟨hd, by rw [cnt_snoc_ne ls (by simp)]; exact hcnt⟩
      · intro h
        exact Pc.noConfusion h
      · intro h
        obtain ⟨hd, _⟩ := hst1 h
        rw [hpc] at hd
        exact Pc.noConfusion hd
      · intro h
        rw [cnt_snoc_ne ls (by simp), cnt_snoc_ne ls (by simp)] at h
        rw [cnt_snoc_ne ls (by simp), cnt_snoc_ne ls (by simp)]
        exact hE h
    · unfold TaskCounts at hc1
      rw [hpc] at hc1
      obtain ⟨hg1, hb1, hs1', hw1⟩ := hc1
      refine ⟨t0, { t1 with pc := .reading }, by rw [htasks]; rfl,
        hsh0, hsh1, hf0, hf1, ?_, ?_, ?_, ?_, ?_, ?_, ?_, ?_, ?_⟩
      · exact taskCounts_stable (by simp) (by simp) (by simp) (by simp) hc0
      · exact ⟨by rw [cnt_snoc_ne ls (by simp)]; exact hg1,
          by rw [cnt_snoc_ne ls (by simp)]; exact hb1,
          by rw [cnt_snoc_ne ls (by simp)]; exact hs1',
          by rw [cnt_snoc_self, hw1]⟩
      · intro l' hl'
        rcases List.mem_append.mp hl' with h | h
        · exact hidx l' h
        · rw [List.mem_singleton.mp h]
          exact Or.inr rfl
      · show c.inProgress s = (holdsFlag t0.pc || holdsFlag Pc.reading)
        rw [hflag, hpc]
        rfl
      · rintro ⟨h, _⟩
        exact hnb ⟨h, by rw [hpc]; rfl⟩
      · intro hne
        rcases hlsc hne with ⟨hd, hcnt⟩ | ⟨hd, _⟩
        · exact Or.inl ⟨hd, by rw [cnt_snoc_ne ls (by simp)]; exact hcnt⟩
        · rw [hpc] at hd
          exact Pc.noConfusion hd
      · intro h
        obtain ⟨hd, _⟩ := hst0 h
        rw [hpc] at hd
        exact Pc.noConfusion hd
      · intro h
        exact Pc.noConfusion h
      · intro h
        rw [cnt_snoc_ne ls (by simp), cnt_snoc_ne ls (by simp)] at h
        rw [cnt_snoc_ne ls (by simp), cnt_snoc_ne ls (by simp)]
        exact hE h
  | endRead now hget hpc =>
    rw [htasks] at hget
    rcases get?_two hget with ⟨hi, ht⟩ | ⟨hi, ht⟩ <;> subst hi <;> subst ht
    · have hh1 : holdsFlag t1.pc = false := by
        cases hor : holdsFlag t1.pc
        · rfl
        · exact absurd ⟨by rw [hpc]; rfl, hor⟩ hnb
      unfold TaskCounts at hc0
      rw [hpc] at hc0
      obtain ⟨hg0, hb0, hs0', hw0⟩ := hc0
      refine ⟨{ t0 with pc := .done, ret := some .backendRead }, t1, by rw [htasks]; rfl,
        hsh0, hsh1, hf0, hf1, ?_, ?_, ?_, ?_, ?_, ?_, ?_, ?_, ?_⟩
      · exact Or.inr (Or.inr ⟨by rw [cnt_snoc_ne ls (by simp)]; exact hg0,
          by rw [cnt_snoc_ne ls (by simp)]; exact hb0,
          by rw [cnt_snoc_ne ls (by simp)]; exact hs0',
          by rw [cnt_snoc_ne ls (by simp), hw0]⟩)
      · exact taskCounts_stable (by simp) (by simp) (by simp) (by simp) hc1
      · intro l' hl'
        rcases List.mem_append.mp hl' with h | h
        · exact hidx l' h
        · rw [List.mem_singleton.mp h]
          exact Or.inl rfl
      · show (Function.update c.inProgress t0.shop false) s =
          (holdsFlag Pc.done || holdsFlag t1.pc)
        rw [hsh0, Function.update_same]
        show false = (false || holdsFlag t1.pc)
        rw [Bool.false_or]
        exact hh1.symm
      · rintro ⟨h, _⟩
        exact Bool.noConfusion h
      · intro _
        exact Or.inl ⟨rfl, by rw [cnt_snoc_ne ls (by simp)]; exact hb0⟩
      · intro h
        exact Pc.noConfusion h
      · intro h
        obtain ⟨hd, _⟩ := hst1 h
        rw [hpc] at hd
        exact Pc.noConfusion hd
      · intro h
        rw [cnt_snoc_ne ls (by simp), cnt_snoc_ne ls (by simp)] at h
        rw [cnt_snoc_ne ls (by simp), cnt_snoc_ne ls (by simp)]
        exact hE h
    · have hh0 : holdsFlag t0.pc = false := by
        cases hor : holdsFlag t0.pc
        · rfl
        · exact absurd ⟨hor, by rw [hpc]; rfl⟩ hnb
      unfold TaskCounts at hc1
      rw [hpc] at hc1
      obtain ⟨hg1, hb1, hs1', hw1⟩ := hc1
      refine ⟨t0, { t1 with pc := .done, ret := some .backendRead }, by rw [htasks]; rfl,
        hsh0, hsh1, hf0, hf1, ?_, ?_, ?_, ?_, ?_, ?_, ?_, ?_, ?_⟩
      · exact taskCounts_stable (by simp) (by simp) (by simp) (by simp) hc0
      · exact Or.inr (Or.inr ⟨by rw [cnt_snoc_ne ls (by simp)]; exact hg1,
          by rw [cnt_snoc_ne ls (by simp)]; exact hb1,
          by rw [cnt_snoc_ne ls (by simp)]; exact hs1',
          by rw [cnt_snoc_ne ls (by simp), hw1]⟩)
      · intro l' hl'
        rcases List.mem_append.mp hl' with h | h
        · exact hidx l' h
        · rw [List.mem_singleton.mp h]
          exact Or.inr rfl
      · show (Function.update c.inProgress t1.shop false) s =
          (holdsFlag t0.pc || holdsFlag Pc.done)
        rw [hsh1, Function.update_same]
        show false = (holdsFlag t0.pc || false)
        rw [Bool.or_false]
        exact hh0.symm
      · rintro ⟨_, h⟩
        exact Bool.noConfusion h
      · intro _
        exact Or.inr ⟨rfl, by rw [cnt_snoc_ne ls (by simp)]; exact hb1⟩
      · intro h
        obtain ⟨hd, _⟩ := hst0 h
        rw [hpc] at hd
        exact Pc.noConfusion hd
      · intro h
        exact Pc.noConfusion h
      · intro h
        rw [cnt_snoc_ne ls (by simp), cnt_snoc_ne ls (by simp)] at h
        rw [cnt_snoc_ne ls (by simp), cnt_snoc_ne ls (by simp)]
        exact hE h


lemma taskCounts_gh_shape {ls : List Label} {i : ℕ} {t : Task}
    (hc : TaskCounts ls i t) (h : 1 ≤ cnt ls i .guardHit) :
    cnt ls i .beginFetch = 0 ∧ cnt ls i .endWrite = 0 ∧
      (t.pc = .done → t.ret = some .backendRead) := by
  unfold TaskCounts at hc
  rcases hpc : t.pc with _ | _ | _ | _ | _ | _ | _ <;> rw [hpc] at hc
  · omega
  · exact ⟨hc.2.1, hc.2.2.2, fun hd => Pc.noConfusion hd⟩
  · omega
  · omega
  · omega
  · omega
  · rcases hc with ⟨_, h2, _, h4, h5⟩ | ⟨h1, _⟩ | ⟨h1, _⟩
    · exact ⟨h2, h4, fun _ => h5⟩
    · omega
    · omega

lemma twoInv_init (s : String) :
    TwoInv s [] (initConfig [(s, false), (s, false)]) := by
  refine ⟨⟨s, false, .notStarted, none⟩, ⟨s, false, .notStarted, none⟩, rfl,
    rfl, rfl, rfl, rfl, ⟨rfl, rfl, rfl, rfl⟩, ⟨rfl, rfl, rfl, rfl⟩,
    ?_, rfl, ?_, ?_, ?_, ?_, ?_⟩
  · intro l' hl'
    exact absurd hl' (List.not_mem_nil l')
  · rintro ⟨h, _⟩
    exact Bool.noConfusion h
  · intro h
    exact absurd rfl h
  · intro h
    exact Pc.noConfusion h
  · intro h
    exact Pc.noConfusion h
  · intro h
    exact absurd h (by decide)

lemma twoInv_steps {s : String} {ls : List Label} {c : SyncConfig}
    (hsteps : Steps (initConfig [(s, false), (s, false)]) ls c) : TwoInv s ls c := by
  have aux : ∀ c₀ ls₀ c₁, Steps c₀ ls₀ c₁ →
      c₀ = initConfig [(s, false), (s, false)] → TwoInv s ls₀ c₁ := by
    intro c₀ ls₀ c₁ h
    induction h with
    | refl =>
      intro he
      rw [he]
      exact twoInv_init s
    | snoc hst hs ih =>
      intro he
      exact twoInv_step (ih he) hs
  exact aux _ _ _ hsteps rfl

/-- C6: a non-forced call arriving while the shop's sync flag is set
(the `guardHit` event) performs no Shopify fetch and no backend write
pass, and when it completes it has returned a backend read; and across
the whole two-call interleaving exactly one Shopify fetch is started. -/
theorem c6_guard_short_circuit (s : String) (ls : List Label) (c : SyncConfig) (j : ℕ)
    (hsteps : Steps (initConfig [(s, false), (s, false)]) ls c)
    (hj : (⟨j, .guardHit⟩ : Label) ∈ ls) :
    cnt ls 0 .beginFetch + cnt ls 1 .beginFetch = 1 ∧
    cnt ls j .beginFetch = 0 ∧
    cnt ls j .endWrite = 0 ∧
    (∀ t, c.tasks.get? j = some t → t.pc = .done → t.ret = some .backendRead) := by
  obtain ⟨t0, t1, htasks, hsh0, hsh1, hf0, hf1, hc0, hc1, hidx, hflag, hnb, hlsc,
    hst0, hst1, hE⟩ := twoInv_steps hsteps
  have hghj : 1 ≤ cnt ls j .guardHit := List.count_pos_iff_mem.mpr hj
  rcases hidx _ hj with hj0 | hj1
  · have hj0' : j = 0 := hj0
    subst hj0'
    obtain ⟨hbf0, hew0, hret0⟩ := taskCounts_gh_shape hc0 hghj
    refine ⟨hE (by omega), hbf0, hew0, ?_⟩
    intro t hget hd
    rw [htasks] at hget
    rcases get?_two hget with ⟨_, ht⟩ | ⟨h10, _⟩
    · rw [← ht]
      exact hret0 (ht ▸ hd)
    · exact Nat.noConfusion h10
  · have hj1' : j = 1 := hj1
    subst hj1'
    obtain ⟨hbf1, hew1, hret1⟩ := taskCounts_gh_shape hc1 hghj
    refine ⟨hE (by omega), hbf1, hew1, ?_⟩
    intro t hget hd
    rw [htasks] at hget
    rcases get?_two hget with ⟨h01, _⟩ | ⟨_, ht⟩
    · exact Nat.noConfusion h01
    · rw [← ht]
      exact hret1 (ht ▸ hd)


/-- Trace of the C6 witness: call 0 starts a fetch, call 1 hits the
guard and returns the backend read, call 0's fetch comes back empty. -/
def c6Trace : List Label :=
  [⟨0, .beginFetch⟩, ⟨1, .guardHit⟩, ⟨1, .endShortRead⟩, ⟨0, .fetchEmpty⟩]

/-- Intermediate and final configurations of the C6 witness trace. -/
def c6W1 : SyncConfig :=
  ⟨Function.update (fun _ => false) "s" true, fun _ => none,
   [⟨"s", false, .fetching, none⟩, ⟨"s", false, .notStarted, none⟩]⟩

def c6W2 : SyncConfig :=
  ⟨Function.update (fun _ => false) "s" true, fun _ => none,
   [⟨"s", false, .fetching, none⟩, ⟨"s", false, .shortRead, none⟩]⟩

def c6W3 : SyncConfig :=
  ⟨Function.update (fun _ => false) "s" true, fun _ => none,
   [⟨"s", false, .fetching, none⟩, ⟨"s", false, .done, some .backendRead⟩]⟩

def c6W4 : SyncConfig :=
  ⟨Function.update (Function.update (fun _ => false) "s" true) "s" false, fun _ => none,
   [⟨"s", false, .done, some .emptyList⟩, ⟨"s", false, .done, some .backendRead⟩]⟩

/-- C6 (witness): the theorem applied to the concrete two-call trace —
exactly one fetch happened, the guarded call fetched and wrote nothing,
and it returned the backend read. -/
theorem c6_witness :
    cnt c6Trace 0 .beginFetch + cnt c6Trace 1 .beginFetch = 1 ∧
    cnt c6Trace 1 .beginFetch = 0 ∧
    cnt c6Trace 1 .endWrite = 0 ∧
    (some RetV.backendRead : Option RetV) = some .backendRead := by
  have s1 : Step (initConfig [("s", false), ("s", false)]) ⟨0, .beginFetch⟩ c6W1 :=
    @Step.beginFetch _ 0 ⟨"s", false, .notStarted, none⟩ rfl rfl (Or.inl rfl)
  have s2 : Step c6W1 ⟨1, .guardHit⟩ c6W2 :=
    @Step.guardHit c6W1 1 ⟨"s", false, .notStarted, none⟩ rfl rfl rfl rfl
  have s3 : Step c6W2 ⟨1, .endShortRead⟩ c6W3 :=
    @Step.endShortRead c6W2 1 ⟨"s", false, .shortRead, none⟩ rfl rfl
  have s4 : Step c6W3 ⟨0, .fetchEmpty⟩ c6W4 :=
    @Step.fetchEmpty c6W3 0 ⟨"s", false, .fetching, none⟩ rfl rfl
  have hsteps : Steps (initConfig [("s", false), ("s", false)]) c6Trace c6W4 :=
    Steps.snoc (Steps.snoc (Steps.snoc (Steps.snoc (Steps.refl _) s1) s2) s3) s4
  have h := c6_guard_short_circuit "s" c6Trace c6W4 1 hsteps (by decide)
  exact ⟨h.1, h.2.1, h.2.2.1,
    h.2.2.2 ⟨"s", false, .done, some .backendRead⟩ rfl rfl⟩


/-- Config for the C5 witness: two non-forced calls for shop `"s"`,
first one fetching, second one guard-hit. -/
def c5GoodConfig : SyncConfig :=
  ⟨Function.update (fun _ => false) "s" true, fun _ => none,
   [⟨"s", false, .fetching, none⟩, ⟨"s", false, .shortRead, none⟩]⟩

/-- C5 (witness): the amended theorem applied to a concrete non-forced
two-call trace — the reachable state has one fetching and one
guard-hit call, and they are not both in flight. -/
theorem c5_witness :
    ¬(inFlight Pc.fetching = true ∧ inFlight Pc.shortRead = true) := by
  have s1 : Step (initConfig [("s", false), ("s", false)]) ⟨0, .beginFetch⟩
      ⟨Function.update (fun _ => false) "s" true, fun _ => none,
       [⟨"s", false, .fetching, none⟩, ⟨"s", false, .notStarted, none⟩]⟩ :=
    @Step.beginFetch _ 0 ⟨"s", false, .notStarted, none⟩ rfl rfl (Or.inl rfl)
  have s2 : Step
      ⟨Function.update (fun _ => false) "s" true, fun _ => none,
       [⟨"s", false, .fetching, none⟩, ⟨"s", false, .notStarted, none⟩]⟩
      ⟨1, .guardHit⟩ c5GoodConfig :=
    @Step.guardHit
      ⟨Function.update (fun _ => false) "s" true, fun _ => none,
       [⟨"s", false, .fetching, none⟩, ⟨"s", false, .notStarted, none⟩]⟩
      1 ⟨"s", false, .notStarted, none⟩ rfl rfl rfl rfl
  exact c5_mutual_exclusion_nonforced [("s", false), ("s", false)] _ c5GoodConfig
    (Steps.snoc (Steps.snoc (Steps.refl _) s1) s2) (by decide)
    0 1 ⟨"s", false, .fetching, none⟩ ⟨"s", false, .shortRead, none⟩ rfl rfl
    (by decide) rfl

/-- C8: `lastSyncTime` changes only at the `endRead` transition — the
resolution of the backend read-back, which itself is enabled only right
after the write pass (`endWrite`), which only follows a non-empty
fetch; the zero-products path returns the empty result (no error) with
the timestamp untouched, and an aborted fetch propagates the error with
the timestamp untouched. -/
theorem c8_timestamp_frame :
    (∀ c l c₁, Step c l c₁ →
      c₁.lastSync = c.lastSync ∨
      ∃ now t, l.ev = .endRead now ∧ c.tasks.get? l.i = some t ∧ t.pc = .reading ∧
        c₁.lastSync = Function.update c.lastSync t.shop (some now)) ∧
    (∀ c i now c₁ t, Step c ⟨i, .endRead now⟩ c₁ → c.tasks.get? i = some t →
      t.pc = .reading) ∧
    (∀ c i c₁ t, Step c ⟨i, .endWrite⟩ c₁ → c.tasks.get? i = some t →
      t.pc = .writing ∧ c₁.tasks.get? i = some { t with pc := .reading }) ∧
    (∀ c l c₁ t t₁, Step c l c₁ → c.tasks.get? l.i = some t →
      c₁.tasks.get? l.i = some t₁ → t.pc ≠ .reading → t₁.pc = .reading →
      l.ev = .endWrite ∧ t.pc = .writing) ∧
    (∀ c i c₁ t, Step c ⟨i, .fetchEmpty⟩ c₁ → c.tasks.get? i = some t →
      c₁.lastSync = c.lastSync ∧
      c₁.tasks.get? i = some { t with pc := .done, ret := some .emptyList }) ∧
    (∀ c i c₁ t, Step c ⟨i, .fetchFail⟩ c₁ → c.tasks.get? i = some t →
      c₁.lastSync = c.lastSync ∧
      c₁.tasks.get? i = some { t with pc := .done, ret := some .threw }) := by
  refine ⟨?_, ?_, ?_, ?_, ?_, ?_⟩
  · intro c l c₁ hs
    cases hs with
    | guardHit hget hpc hflag hforce => exact Or.inl rfl
    | beginStale hget hpc hflag hforce hlast => exact Or.inl rfl
    | beginFetch hget hpc hguard => exact Or.inl rfl
    | endShortRead hget hpc => exact Or.inl rfl
    | endStaleRead hget hpc => exact Or.inl rfl
    | fetchFail hget hpc => exact Or.inl rfl
    | fetchEmpty hget hpc => exact Or.inl rfl
    | fetchSome hget hpc => exact Or.inl rfl
    | endWrite hget hpc => exact Or.inl rfl
    | endRead now hget hpc => exact Or.inr ⟨now, _, rfl, hget, hpc, rfl⟩
  · intro c i now c₁ t hs hget
    cases hs with
    | endRead now hget2 hpc2 =>
      have he := hget2.symm.trans hget
      injection he with he
      rw [← he]
      exact hpc2
  · intro c i c₁ t hs hget
    cases hs with
    | endWrite hget2 hpc2 =>
      have he := hget2.symm.trans hget
      injection he with he
      subst he
      exact ⟨hpc2, get?_set_same hget2 _⟩
  · intro c l c₁ t t₁ hs hget hget1 hne ht1
    cases hs with
    | guardHit hget2 hpc2 hflag hforce =>
      rw [get?_set_same hget2] at hget1
      injection hget1 with h
      rw [← h] at ht1
      exact Pc.noConfusion ht1
    | beginStale hget2 hpc2 hflag hforce hlast =>
      rw [get?_set_same hget2] at hget1
      injection hget1 with h
      rw [← h] at ht1
      exact Pc.noConfusion ht1
    | beginFetch hget2 hpc2 hguard =>
      rw [get?_set_same hget2] at hget1
      injection hget1 with h
      rw [← h] at ht1
      exact Pc.noConfusion ht1
    | endShortRead hget2 hpc2 =>
      rw [get?_set_same hget2] at hget1
      injection hget1 with h
      rw [← h] at ht1
      exact Pc.noConfusion ht1
    | endStaleRead hget2 hpc2 =>
      rw [get?_set_same hget2] at hget1
      injection hget1 with h
      rw [← h] at ht1
      exact Pc.noConfusion ht1
    | fetchFail hget2 hpc2 =>
      rw [get?_set_same hget2] at hget1
      injection hget1 with h
      rw [← h] at ht1
      exact Pc.noConfusion ht1
    | fetchEmpty hget2 hpc2 =>
      rw [get?_set_same hget2] at hget1
      injection hget1 with h
      rw [← h] at ht1
      exact Pc.noConfusion ht1
    | fetchSome hget2 hpc2 =>
      rw [get?_set_same hget2] at hget1
      injection hget1 with h
      rw [← h] at ht1
      exact Pc.noConfusion ht1
    | endWrite hget2 hpc2 =>
      have he := hget2.symm.trans hget
      injection he with he
      subst he
      exact ⟨rfl, hpc2⟩
    | endRead now hget2 hpc2 =>
      rw [get?_set_same hget2] at hget1
      injection hget1 with h
      rw [← h] at ht1
      exact Pc.noConfusion ht1
  · intro c i c₁ t hs hget
    cases hs with
    | fetchEmpty hget2 hpc2 =>
      have he := hget2.symm.trans hget
      injection he with he
      subst he
      exact ⟨rfl, get?_set_same hget2 _⟩
  · intro c i c₁ t hs hget
    cases hs with
    | fetchFail hget2 hpc2 =>
      have he := hget2.symm.trans hget
      injection he with he
      subst he
      exact ⟨rfl, get?_set_same hget2 _⟩


/-- C8 (witness): the frame theorem applied at a concrete zero-products
step: the timestamp map is untouched and the call ends with the empty
result, not an error. -/
theorem c8_witness :
    (⟨Function.update (Function.update (fun _ => false) "s" true) "s" false, fun _ => none,
      [⟨"s", false, .done, some .emptyList⟩]⟩ : SyncConfig).lastSync =
      (⟨Function.update (fun _ => false) "s" true, fun _ => none,
        [⟨"s", false, .fetching, none⟩]⟩ : SyncConfig).lastSync ∧
    (⟨Function.update (Function.update (fun _ => false) "s" true) "s" false, fun _ => none,
      [⟨"s", false, .done, some .emptyList⟩]⟩ : SyncConfig).tasks.get? 0 =
      some ⟨"s", false, .done, some .emptyList⟩ := by
  have hstep : Step
      ⟨Function.update (fun _ => false) "s" true, fun _ => none,
       [⟨"s", false, .fetching, none⟩]⟩
      ⟨0, .fetchEmpty⟩
      ⟨Function.update (Function.update (fun _ => false) "s" true) "s" false, fun _ => none,
       [⟨"s", false, .done, some .emptyList⟩]⟩ :=
    @Step.fetchEmpty
      ⟨Function.update (fun _ => false) "s" true, fun _ => none,
       [⟨"s", false, .fetching, none⟩]⟩
      0 ⟨"s", false, .fetching, none⟩ rfl rfl
  exact c8_timestamp_frame.2.2.2.2.1 _ 0 _ ⟨"s", false, .fetching, none⟩ hstep rfl

/-! ## Batched backend writes (`syncProductsToBackend`, lines 148-182) -/

/-- A product as passed to the write pass (only the id is read on the
failure path). -/
structure SyncProduct where
  id : String
deriving DecidableEq

/-- The accumulator `results` of `syncProductsToBackend`. -/
structure SyncResults where
  successful : ℕ
  failed : ℕ
  errors : List (String × String)
deriving DecidableEq

/-- One product's settled write: the `try`/`catch` inside the batch
callback turns a rejection (`fail p = some msg`) into a `failed` count
and an `errors` entry carrying the product id and message, and never
propagates it. -/
def syncBatchStep (fail : SyncProduct → Option String) (res : SyncResults)
    (p : SyncProduct) : SyncResults :=
  match fail p with
  | none => { res with successful := res.successful + 1 }
  | some msg => { res with failed := res.failed + 1, errors := res.errors ++ [(p.id, msg)] }

/-- `const batchSize = 10`: split the product list into batches. -/
def chunks10 : List SyncProduct → List (List SyncProduct)
  | [] => []
  | p :: ps => ((p :: ps).take 10) :: chunks10 ((p :: ps).drop 10)
termination_by l => l.length
decreasing_by
  simp only [List.length_drop, List.length_cons]
  omega

/-- `syncProductsToBackend(shopId, shopifyProducts)`: fold the batches
in order, awaiting every settled outcome of a batch before the next. -/
def syncProductsToBackend (fail : SyncProduct → Option String)
    (ps : List SyncProduct) : SyncResults :=
  (chunks10 ps).foldl (fun res batch => batch.foldl (syncBatchStep fail) res) ⟨0, 0, []⟩

lemma chunks10_flatten : ∀ ps : List SyncProduct, (chunks10 ps).flatten = ps
  | [] => by rw [chunks10]; rfl
  | p :: rest => by
    rw [chunks10]
    simp only [List.flatten_cons]
    rw [chunks10_flatten ((p :: rest).drop 10), List.take_append_drop]
termination_by ps => ps.length
decreasing_by
  simp only [List.length_drop, List.length_cons]
  omega

lemma foldl_chunks10 (fail : SyncProduct → Option String) (ps : List SyncProduct)
    (init : SyncResults) :
    (chunks10 ps).foldl (fun res batch => batch.foldl (syncBatchStep fail) res) init =
      ps.foldl (syncBatchStep fail) init := by
  conv_rhs => rw [← chunks10_flatten ps]
  rw [List.foldl_flatten]

lemma syncFold_spec (fail : SyncProduct → Option String) (ps : List SyncProduct)
    (init : SyncResults) :
    ps.foldl (syncBatchStep fail) init =
      ⟨init.successful + (ps.filter fun p => (fail p).isNone).length,
       init.failed + (ps.filter fun p => (fail p).isSome).length,
       init.errors ++ (ps.filter fun p => (fail p).isSome).map
         (fun p => (p.id, (fail p).getD ""))⟩ := by
  induction ps generalizing init with
  | nil => simp
  | cons p rest ih =>
    rcases hf : fail p with _ | msg
    · rw [List.foldl_cons, ih]
      simp [syncBatchStep, hf, Nat.add_assoc, Nat.add_comm 1]
    · rw [List.foldl_cons, ih]
      simp [syncBatchStep, hf, Nat.add_assoc, Nat.add_comm 1]

/-- C7: for every product list and rejection pattern the write pass
completes with `successful + failed = n`, exactly one error entry per
failed product carrying its id and message, and every product whose
write does not reject is counted successful — one failure never
prevents the other writes. -/
theorem c7_batch_isolation (fail : SyncProduct → Option String) (ps : List SyncProduct) :
    (syncProductsToBackend fail ps).successful + (syncProductsToBackend fail ps).failed =
      ps.length ∧
    (syncProductsToBackend fail ps).successful =
      (ps.filter fun p => (fail p).isNone).length ∧
    (syncProductsToBackend fail ps).failed =
      (ps.filter fun p => (fail p).isSome).length ∧
    (syncProductsToBackend fail ps).errors =
      (ps.filter fun p => (fail p).isSome).map (fun p => (p.id, (fail p).getD "")) ∧
    (syncProductsToBackend fail ps).errors.length = (syncProductsToBackend fail ps).failed := by
  have h : syncProductsToBackend fail ps =
      ⟨(ps.filter fun p => (fail p).isNone).length,
       (ps.filter fun p => (fail p).isSome).length,
       (ps.filter fun p => (fail p).isSome).map (fun p => (p.id, (fail p).getD ""))⟩ := by
    unfold syncProductsToBackend
    rw [foldl_chunks10, syncFold_spec]
    simp
  rw [h]
  refine ⟨?_, rfl, rfl, rfl, by simp⟩
  show (ps.filter fun p => (fail p).isNone).length +
      (ps.filter fun p => (fail p).isSome).length = ps.length
  clear h
  induction ps with
  | nil => rfl
  | cons p rest ih =>
    rcases hf : fail p with _ | m
    · rw [show ((p :: rest).filter fun q => (fail q).isNone) =
          p :: (rest.filter fun q => (fail q).isNone) from by
        rw [List.filter_cons]
        simp [hf]]
      rw [show ((p :: rest).filter fun q => (fail q).isSome) =
          rest.filter fun q => (fail q).isSome from by
        rw [List.filter_cons]
        simp [hf]]
      rw [List.length_cons, List.length_cons]
      omega
    · rw [show ((p :: rest).filter fun q => (fail q).isNone) =
          rest.filter fun q => (fail q).isNone from by
        rw [List.filter_cons]
        simp [hf]]
      rw [show ((p :: rest).filter fun q => (fail q).isSome) =
          p :: (rest.filter fun q => (fail q).isSome) from by
        rw [List.filter_cons]
        simp [hf]]
      rw [List.length_cons, List.length_cons]
      omega


/-! ## Backend read (`getProductsFromBackend`, lines 187-200) -/

/-- Case split on a settled `Except` (a `try`/`catch` shape). -/
def exceptCase {α β : Type} (e : Except Unit α) (err : β) (k : α → β) : β :=
  match e with
  | .error _ => err
  | .ok a => k a

@[simp] lemma exceptCase_ok {α β : Type} (a : α) (err : β) (k : α → β) :
    exceptCase (.ok a) err k = k a := rfl

@[simp] lemma exceptCase_error {α β : Type} (u : Unit) (err : β) (k : α → β) :
    exceptCase (.error u) err k = err := rfl

/-- `Array.isArray(data) ? data : [data]`. -/
def wrapData : JVal → List JVal
  | .jarr xs => xs
  | d => [d]

/-- `getProductsFromBackend(shopId)`: the argument is the settled
outcome of `apiClient.getProducts` (`.error` = rejected transport).
The `try`/`catch` absorbs everything into `[]`; a successful response
returns `response.data` as-is when it is an array, wraps it in a
singleton when it is truthy but not an array, and falls through to
`[]` when `response.success && response.data` is falsy. -/
def getProductsFromBackend (resp : Except Unit JVal) : List JVal :=
  exceptCase resp [] fun r =>
    exceptCase (getField r "success") [] fun s =>
      if truthy s then
        exceptCase (getField r "data") [] fun d =>
          if truthy d then wrapData d else []
      else []

/-- C10 (counterexample): a successful response whose `data` is `null`
(non-array) yields `[]`, not the claimed one-element wrapping. -/
theorem c10_counterexample :
    getProductsFromBackend (.ok (.jobj [("success", .jbool true), ("data", .jnull)])) = [] ∧
    getProductsFromBackend (.ok (.jobj [("success", .jbool true), ("data", .jnull)])) ≠
      [JVal.jnull] := by
  refine ⟨rfl, ?_⟩
  intro h
  rw [show getProductsFromBackend
      (.ok (.jobj [("success", .jbool true), ("data", .jnull)])) = [] from rfl] at h
  exact List.noConfusion h

/-- C10 (amended): `getProductsFromBackend` never throws and always
returns an array — a transport error or an unsuccessful response gives
`[]`, a successful response with a truthy array `data` gives that
array, with truthy non-array `data` gives the one-element wrapping,
and with falsy `data` (such as `null` or missing) gives `[]`; in
particular an unreachable backend and an empty catalog are both `[]`. -/
theorem c10_backend_read_cases :
    getProductsFromBackend (.error ()) = [] ∧
    (∀ (r s : JVal), getField r "success" = .ok s → truthy s = false →
      getProductsFromBackend (.ok r) = []) ∧
    (∀ (r s d : JVal) (xs : List JVal), getField r "success" = .ok s → truthy s = true →
      getField r "data" = .ok d → truthy d = true → d = .jarr xs →
      getProductsFromBackend (.ok r) = xs) ∧
    (∀ (r s d : JVal), getField r "success" = .ok s → truthy s = true →
      getField r "data" = .ok d → truthy d = true → (∀ xs, d ≠ .jarr xs) →
      getProductsFromBackend (.ok r) = [d]) ∧
    (∀ (r s d : JVal), getField r "success" = .ok s → truthy s = true →
      getField r "data" = .ok d → truthy d = false →
      getProductsFromBackend (.ok r) = []) ∧
    getProductsFromBackend (.error ()) =
      getProductsFromBackend (.ok (.jobj [("success", .jbool true), ("data", .jarr [])])) := by
  refine ⟨rfl, ?_, ?_, ?_, ?_, rfl⟩
  · intro r s hs hts
    simp [getProductsFromBackend, hs, hts]
  · intro r s d xs hs hts hd htd hdx
    subst hdx
    simp only [getProductsFromBackend, exceptCase_ok, hs, hts, hd, htd, if_true]
    rfl
  · intro r s d hs hts hd htd hna
    simp only [getProductsFromBackend, exceptCase_ok, hs, hts, hd, htd, if_true]
    cases d with
    | jarr xs => exact absurd rfl (hna xs)
    | jnull => rfl
    | jbool b => rfl
    | jnum x => rfl
    | jstr str => rfl
    | jobj fs => rfl
  · intro r s d hs hts hd htd
    simp [getProductsFromBackend, hs, hts, hd, htd]

/-- C10 (witness): the amended theorem applied at concrete responses
for each branch. -/
theorem c10_witness :
    getProductsFromBackend (.ok (.jobj [("success", .jbool false)])) = [] ∧
    getProductsFromBackend
      (.ok (.jobj [("success", .jbool true), ("data", .jarr [.jstr "p"])])) = [.jstr "p"] ∧
    getProductsFromBackend
      (.ok (.jobj [("success", .jbool true), ("data", .jstr "p")])) = [.jstr "p"] ∧
    getProductsFromBackend
      (.ok (.jobj [("success", .jbool true), ("data", .jnum (some 0))])) = [] := by
  refine ⟨?_, ?_, ?_, ?_⟩
  · exact c10_backend_read_cases.2.1 _ (.jbool false) rfl rfl
  · exact c10_backend_read_cases.2.2.1 _ (.jbool true) (.jarr [.jstr "p"]) [.jstr "p"]
      rfl rfl rfl rfl rfl
  · exact c10_backend_read_cases.2.2.2.1 _ (.jbool true) (.jstr "p") rfl rfl rfl rfl
      (fun xs h => JVal.noConfusion h)
  · exact c10_backend_read_cases.2.2.2.2.1 _ (.jbool true) (.jnum (some 0)) rfl rfl rfl rfl

end TwivaCommerce
